import Mathlib

/-!
Shallow embedding of the XRPL binary codec core (variable-length prefix
encoding, the append-only binary serializer, the `SerializedDict` object
codec with X-address/tag disambiguation, and the `AccountID` value codec),
together with theorems checking the specification's claims against it.

Machine integers are modelled as `Nat` with explicit `% 256` where the
source truncates to a byte; byte strings are `List Nat`; fallible code
returns `Except`.
-/

deriving instance DecidableEq for Except

namespace XrplCodec

/-! ## Variable-length prefix encoding
Embedding of `_encode_variable_length_prefix` and its constants from
`binarycodec/binary_wrappers/binary_serializer.py`. -/

def MAX_SINGLE_BYTE_LENGTH : Nat := 192

def MAX_DOUBLE_BYTE_LENGTH : Nat := 12481

def MAX_SECOND_BYTE_VALUE : Nat := 240

def MAX_LENGTH_VALUE : Nat := 918744

/-- Embedding of `_encode_variable_length_prefix`: the 1-3 byte length
marker written before a length-prefixed value, or an error for lengths
beyond the encodable maximum. -/
def encodeVariableLength (length : Nat) : Except String (List Nat) :=
  if length ≤ MAX_SINGLE_BYTE_LENGTH then
    .ok [length]
  else if length < MAX_DOUBLE_BYTE_LENGTH then
    let l := length - (MAX_SINGLE_BYTE_LENGTH + 1)
    .ok [(l >>> 8) + (MAX_SINGLE_BYTE_LENGTH + 1), l % 256]
  else if length ≤ MAX_LENGTH_VALUE then
    let l := length - MAX_DOUBLE_BYTE_LENGTH
    .ok [(MAX_SECOND_BYTE_VALUE + 1) + (l >>> 16), (l >>> 8) % 256, l % 256]
  else
    .error "VariableLength field must be <= 918744 bytes long"

/-! ## Binary serializer
Embedding of `BinarySerializer` from the same module: an append-only
byte accumulator. -/

structure BinarySerializer where
  bytesink : List Nat
deriving DecidableEq

/-- Embedding of `BinarySerializer.append`. -/
def BinarySerializer.append (s : BinarySerializer) (bytes_object : List Nat) :
    BinarySerializer :=
  { bytesink := s.bytesink ++ bytes_object }

/-- A field descriptor as consumed by the serializer.  The registry that
produces these is external configuration data; the shape follows the
spec's FieldInstance record. -/
structure FieldInstance where
  name : String
  type : String
  type_code : Nat
  field_code : Nat
  is_serialized : Bool
  is_signing : Bool
  is_vl_encoded : Bool
  header : List Nat
deriving DecidableEq

/-- Modelled from the spec: the canonical-ordering key, a composite of
`(type_code, field_code)` (the `ordinal` attribute of the external
FieldInstance class, which is not among the sources). -/
def FieldInstance.ordinal (f : FieldInstance) : Nat :=
  f.type_code * 65536 + f.field_code

/-- Embedding of `BinarySerializer.write_length_encoded`: emit the
variable-length marker for the value's byte count, then the value bytes. -/
def BinarySerializer.write_length_encoded (s : BinarySerializer)
    (value : List Nat) : Except String BinarySerializer :=
  match encodeVariableLength value.length with
  | .error e => .error e
  | .ok lp => .ok { bytesink := s.bytesink ++ lp ++ value }

/-- Embedding of `BinarySerializer.write_field_and_value`: emit the field
header, then either the length-prefixed or the raw value bytes. -/
def BinarySerializer.write_field_and_value (s : BinarySerializer)
    (field : FieldInstance) (value : List Nat) : Except String BinarySerializer :=
  if field.is_vl_encoded then
    BinarySerializer.write_length_encoded { bytesink := s.bytesink ++ field.header } value
  else
    .ok { bytesink := s.bytesink ++ field.header ++ value }

/-! ## AccountID string codec
Embedding of `AccountID.from_value` from `binarycodec/types/account_id.py`.
The classic-address base58 decoder it delegates to lives in the address
codec, outside the shown sources, so `from_value` is parametrized by that
decoder function. -/

/-- A character accepted by `_HEX_REGEX`, i.e. the pattern `[A-F0-9]`. -/
def isUpperHexDigit (c : Char) : Bool :=
  ('0' ≤ c && c ≤ '9') || ('A' ≤ c && c ≤ 'F')

/-- Embedding of `_HEX_REGEX.fullmatch`: exactly forty characters, each
matching `[A-F0-9]`. -/
def hexMatch40 (s : String) : Bool :=
  s.toList.length == 40 && s.toList.all isUpperHexDigit

def hexDigitVal (c : Char) : Nat :=
  if '0' ≤ c ∧ c ≤ '9' then c.toNat - 48
  else if 'A' ≤ c ∧ c ≤ 'F' then c.toNat - 55
  else if 'a' ≤ c ∧ c ≤ 'f' then c.toNat - 87
  else 0

/-- Embedding of `bytes.fromhex` on an even-length hex string. -/
def hexToBytes : List Char → List Nat
  | c1 :: c2 :: rest => (16 * hexDigitVal c1 + hexDigitVal c2) :: hexToBytes rest
  | _ => []

/-- Embedding of `AccountID.from_value` on a string input; `dec` is the
external `decode_classic_address` function. -/
def accountIDFromValue (dec : String → Except String (List Nat))
    (value : String) : Except String (List Nat) :=
  if value = "" then .ok (List.replicate 20 0)
  else if hexMatch40 value then .ok (hexToBytes value.toList)
  else dec value

/-! ## JSON-like values
The object codec consumes loosely typed JSON-like maps.  Strings are split
into plain strings and X-address strings.  Modelled from the spec: the
address codec (`is_valid_xaddress`, `xaddress_to_classic_address`) is not
among the sources; since the spec states `decode(encode(x)) == x` for the
X-address codec, an X-address string is represented by its decoded
content: a classic address, an optional tag, and a network flag. -/

inductive StrVal where
  | plain (s : String)
  | xaddress (classic : String) (tag : Option Nat) (is_test : Bool)
deriving DecidableEq

inductive Value where
  | null
  | str (sv : StrVal)
  | int (n : Nat)
  | obj (entries : List (String × Value))

/-- `v is not None` in Python. -/
def Value.notNull : Value → Bool
  | .null => false
  | _ => true

/-- Modelled from the spec: `is_valid_xaddress` applied to a value that
may or may not be a string (`isinstance(v, str) and is_valid_xaddress(v)`). -/
def isValidXaddress : Value → Bool
  | .str (.xaddress _ _ _) => true
  | _ => false

/-! ### Python dict semantics
Insertion-ordered association lists with unique keys: assignment
overwrites in place, `update` assigns every entry of the other dict. -/

def dictGet (d : List (String × Value)) (k : String) : Option Value :=
  (d.find? (fun p => p.1 == k)).map (fun p => p.2)

def dictContains (d : List (String × Value)) (k : String) : Bool :=
  d.any (fun p => p.1 == k)

def dictSet (d : List (String × Value)) (k : String) (v : Value) :
    List (String × Value) :=
  if dictContains d k then d.map (fun p => if p.1 == k then (k, v) else p)
  else d ++ [(k, v)]

def dictUpdate (d upd : List (String × Value)) : List (String × Value) :=
  upd.foldl (fun acc p => dictSet acc p.1 p.2) d

/-- `k in d and d[k] is not None` in Python, on the option returned by
`dictGet`. -/
def optNotNull (o : Option Value) : Bool :=
  match o with
  | some v => v.notNull
  | none => false

/-! ## Field registry (external configuration data)
Modelled from the spec: the field-metadata table is supplied as
configuration data and is not among the sources.  The entries below carry
the real protocol codes for a representative slice of fields. -/

def TransactionTypeField : FieldInstance :=
  ⟨"TransactionType", "UInt16", 1, 2, true, true, false, [0x12]⟩

def SourceTagField : FieldInstance :=
  ⟨"SourceTag", "UInt32", 2, 3, true, true, false, [0x23]⟩

def SequenceField : FieldInstance :=
  ⟨"Sequence", "UInt32", 2, 4, true, true, false, [0x24]⟩

def DestinationTagField : FieldInstance :=
  ⟨"DestinationTag", "UInt32", 2, 14, true, true, false, [0x2E]⟩

def SigningPubKeyField : FieldInstance :=
  ⟨"SigningPubKey", "Blob", 7, 3, true, true, true, [0x73]⟩

def TxnSignatureField : FieldInstance :=
  ⟨"TxnSignature", "Blob", 7, 4, true, false, true, [0x74]⟩

def MemoDataField : FieldInstance :=
  ⟨"MemoData", "Blob", 7, 13, true, true, true, [0x7D]⟩

def AccountField : FieldInstance :=
  ⟨"Account", "AccountID", 8, 1, true, true, true, [0x81]⟩

def DestinationField : FieldInstance :=
  ⟨"Destination", "AccountID", 8, 3, true, true, true, [0x83]⟩

def ObjectEndMarkerField : FieldInstance :=
  ⟨"ObjectEndMarker", "SerializedDict", 14, 1, false, true, false, [0xE1]⟩

def MemoField : FieldInstance :=
  ⟨"Memo", "SerializedDict", 14, 10, true, true, false, [0xEA]⟩

def field_definitions : List FieldInstance :=
  [TransactionTypeField, SourceTagField, SequenceField, DestinationTagField,
   SigningPubKeyField, TxnSignatureField, MemoDataField, AccountField,
   DestinationField, ObjectEndMarkerField, MemoField]

/-- Modelled from the spec: `lookup_by_name` over the Field Registry. -/
def get_field_instance (name : String) : Option FieldInstance :=
  field_definitions.find? (fun f => f.name == name)

/-- Modelled from the spec: `lookup_by_code` over the Field Registry. -/
def get_field_by_code (tc fc : Nat) : Option FieldInstance :=
  field_definitions.find? (fun f => f.type_code == tc && f.field_code == fc)

/-- Modelled from the spec: the enumerated-code table for transaction
types (`enum_code_for(transaction_type, ·)`). -/
def transaction_type_codes : List (String × Nat) :=
  [("Payment", 0), ("EscrowCreate", 1), ("AccountSet", 3)]

def enumLookup (table : List (String × Nat)) (v : Value) : Value :=
  match v with
  | .str (.plain s) =>
      match table.find? (fun p => p.1 == s) with
      | some p => .int p.2
      | none => v
  | _ => v

/-- Embedding of `_str_to_enum` from `serialized_dict.py` (the registry
tables behind it are modelled from the spec; only the transaction-type
table is populated here). -/
def str_to_enum (field : String) (v : Value) : Value :=
  if field == "TransactionType" then enumLookup transaction_type_codes v
  else if field == "TransactionResult" then enumLookup [] v
  else if field == "LedgerEntryType" then enumLookup [] v
  else v

/-! ## The object codec: `SerializedDict` -/

def OBJECT_END_MARKER_BYTE : Nat := 0xE1

def DESTINATION : String := "Destination"

def ACCOUNT : String := "Account"

def SOURCE_TAG : String := "SourceTag"

def DEST_TAG : String := "DestinationTag"

/-- Errors: `codec` is `XRPLBinaryCodecException`, `value` covers the
other Python exception classes (`ValueError`, `KeyError`), and `fuel` is
the recursion-fuel exhaustion artifact of this embedding. -/
inductive SErr where
  | codec (msg : String)
  | value (msg : String)
  | fuel
deriving DecidableEq

/-- Embedding of `_handle_xaddress` from `serialized_dict.py`, applied to
the decoded content of the X-address. -/
def handle_xaddress (field : String) (classic_address : String)
    (tag : Option Nat) : Except SErr (List (String × Value)) :=
  if field == DESTINATION then
    match tag with
    | some t => .ok [(field, .str (.plain classic_address)), (DEST_TAG, .int t)]
    | none => .ok [(field, .str (.plain classic_address))]
  else if field == ACCOUNT then
    match tag with
    | some t => .ok [(field, .str (.plain classic_address)), (SOURCE_TAG, .int t)]
    | none => .ok [(field, .str (.plain classic_address))]
  else
    match tag with
    | some _ => .error (.codec (field ++ " cannot have an associated tag"))
    | none => .ok [(field, .str (.plain classic_address))]

/-- One iteration of the first loop of `SerializedDict.from_value`
(X-address decomposition, tag-conflict checks, enum translation);
`whole` is the original input dict `value`. -/
def processEntry (whole acc : List (String × Value)) (k : String) (v : Value) :
    Except SErr (List (String × Value)) :=
  match v with
  | .str (.xaddress classic tag _) =>
      match handle_xaddress k classic tag with
      | .error e => .error e
      | .ok handled =>
          if optNotNull (dictGet handled SOURCE_TAG)
              && optNotNull (dictGet whole SOURCE_TAG) then
            .error (.codec "Cannot have Account X-Address and SourceTag")
          else if optNotNull (dictGet handled DEST_TAG)
              && optNotNull (dictGet whole DEST_TAG) then
            .error (.codec "Cannot have Destination X-Address and DestinationTag")
          else
            .ok (dictUpdate acc handled)
  | _ => .ok (dictSet acc k (str_to_enum k v))

/-- The first loop of `SerializedDict.from_value`, building
`xaddress_decoded`. -/
def preprocess (whole : List (String × Value)) :
    List (String × Value) → List (String × Value) →
    Except SErr (List (String × Value))
  | [], acc => .ok acc
  | (k, v) :: rest, acc =>
      match processEntry whole acc k v with
      | .error e => .error e
      | .ok acc2 => preprocess whole rest acc2

/-- The second loop of `SerializedDict.from_value`: resolve every key of
`xaddress_decoded` through the registry, keeping the serialized,
non-null fields. -/
def selectKeys (decoded : List (String × Value)) : List FieldInstance :=
  (decoded.map (fun p => p.1)).filterMap (fun field_name =>
    match get_field_instance field_name with
    | some fi =>
        if optNotNull (dictGet decoded fi.name) && fi.is_serialized then some fi
        else none
    | none => none)

/-- `sorted_keys.sort(key=lambda x: x.ordinal)`: stable sort ascending by
ordinal (insertion sort, stable like Python's `list.sort`). -/
def sortFields (l : List FieldInstance) : List FieldInstance :=
  l.insertionSort (fun a b => a.ordinal ≤ b.ordinal)

/-! ### Primitive associated types
Modelled from the spec: the fixed-width integer and blob types are part
of the primitive type family not excerpted in the sources ("fixed-width
integers, ... variable-length blobs"); `AccountID` is embedded from
`account_id.py` above. -/

def uint16FromValue : Value → Except SErr (List Nat)
  | .int n =>
      if n < 65536 then .ok [n / 256 % 256, n % 256]
      else .error (.codec "value out of range for a UInt16")
  | _ => .error (.codec "Invalid type to construct a UInt16")

def uint32FromValue : Value → Except SErr (List Nat)
  | .int n =>
      if n < 4294967296 then
        .ok [n / 16777216 % 256, n / 65536 % 256, n / 256 % 256, n % 256]
      else .error (.codec "value out of range for a UInt32")
  | _ => .error (.codec "Invalid type to construct a UInt32")

def isHexDigit (c : Char) : Bool :=
  isUpperHexDigit c || ('a' ≤ c && c ≤ 'f')

def blobFromValue : Value → Except SErr (List Nat)
  | .str (.plain s) =>
      if s.toList.length % 2 == 0 && s.toList.all isHexDigit then
        .ok (hexToBytes s.toList)
      else .error (.codec "Cannot construct Blob from the given string")
  | _ => .error (.codec "Invalid type to construct a Blob")

/-- Modelled from the spec: `decode_classic_address` (address codec, not
among the sources) — a base58-check decoder returning the 20-byte
payload.  Represented as a finite table of known classic addresses (the
two protocol reserved accounts), failing on every other string. -/
def classic_address_registry : List (String × List Nat) :=
  [("rrrrrrrrrrrrrrrrrrrrrhoLvTp", List.replicate 20 0),
   ("rrrrrrrrrrrrrrrrrrrrBZbvji", List.replicate 19 0 ++ [1])]

def decode_classic_address (s : String) : Except String (List Nat) :=
  match classic_address_registry.find? (fun p => p.1 == s) with
  | some p => .ok p.2
  | none => .error (s ++ " is not a valid classic address")

/-- The `AccountID` associated type on a JSON-like value: delegates to
the embedded `AccountID.from_value` for strings. -/
def acctFromValue : Value → Except SErr (List Nat)
  | .str (.plain s) =>
      match accountIDFromValue decode_classic_address s with
      | .ok b => .ok b
      | .error e => .error (.codec e)
  | _ => .error (.codec "Invalid type to construct an AccountID: expected str")

/-- The three mutually recursive operations of the object codec, merged
into one call type so that the recursion is structural on the fuel and
therefore kernel-reducible. -/
inductive CodecCall where
  | assoc (tn : String) (v : Value)
  | dict (d : List (String × Value)) (only_signing : Bool)
  | writeFields (decoded : List (String × Value)) (fields : List FieldInstance)
      (s : BinarySerializer)

/-- The recursive core of the object codec.  `assoc` dispatches
`field.associated_type.from_value` by type name; `writeFields` is the
final loop of `SerializedDict.from_value` (construct each typed value,
annotating codec failures with the field name, write it through the
serializer, append the object-end marker after nested objects) returning
the accumulated bytes; `dict` is `SerializedDict.from_value` itself.
Every recursive call strictly decreases the fuel. -/
def codecRun (fuel0 : Nat) (c : CodecCall) : Except SErr (List Nat) :=
  match fuel0, c with
  | 0, _ => .error .fuel
  | fuel + 1, .assoc tn v =>
      if tn == "UInt16" then uint16FromValue v
      else if tn == "UInt32" then uint32FromValue v
      else if tn == "Blob" then blobFromValue v
      else if tn == "AccountID" then acctFromValue v
      else if tn == "SerializedDict" then
        match v with
        | .obj entries => codecRun fuel (.dict entries false)
        | _ => .error (.codec "Invalid type to construct a SerializedDict")
      else .error (.codec ("unsupported associated type " ++ tn))
  | _ + 1, .writeFields _ [] s => .ok s.bytesink
  | fuel + 1, .writeFields decoded (field :: rest) s =>
      match dictGet decoded field.name with
      | none => .error (.value ("KeyError: " ++ field.name))
      | some v =>
        match codecRun fuel (.assoc field.type v) with
        | .error (.codec m) =>
            .error (.codec ("Error processing " ++ field.name ++ ": " ++ m))
        | .error e => .error e
        | .ok enc =>
          match s.write_field_and_value field enc with
          | .error m => .error (.value m)
          | .ok s2 =>
            let s3 := if field.type == "SerializedDict"
                      then s2.append [OBJECT_END_MARKER_BYTE] else s2
            codecRun fuel (.writeFields decoded rest s3)
  | fuel + 1, .dict d os =>
      match preprocess d d [] with
      | .error e => .error e
      | .ok decoded =>
        let sorted := sortFields (selectKeys decoded)
        let final := if os then sorted.filter (fun f => f.is_signing) else sorted
        codecRun fuel (.writeFields decoded final { bytesink := [] })
termination_by structural fuel0

/-- Dispatch of `field.associated_type.from_value` by the field's type
name. -/
def assocFromValue (tn : String) (v : Value) (fuel : Nat) :
    Except SErr (List Nat) :=
  codecRun fuel (.assoc tn v)

/-- The final loop of `SerializedDict.from_value`, returning the bytes
accumulated on top of the serializer `s`. -/
def writeSortedFields (decoded : List (String × Value))
    (fields : List FieldInstance) (s : BinarySerializer) (fuel : Nat) :
    Except SErr (List Nat) :=
  codecRun fuel (.writeFields decoded fields s)

/-- Embedding of `SerializedDict.from_value` (recursion fuel added). -/
def dictFromValue (d : List (String × Value)) (only_signing : Bool)
    (fuel : Nat) : Except SErr (List Nat) :=
  codecRun fuel (.dict d only_signing)

/-! ## Binary parser
Modelled from the spec: the `BinaryParser` class is not among the
sources.  A forward-only cursor over an immutable byte buffer;
`read_field` decodes the 1-3 byte field header (type and field nibbles,
each inline up to 15 or escaped via the zero-nibble/extra-byte scheme)
and resolves it through the Field Registry; `read_field_value` reads the
variable-length marker for length-prefixed fields, the type's fixed
width otherwise, and recurses into the object codec for nested objects;
no operation reads past the buffer end. -/

structure BinaryParser where
  data : List Nat
deriving DecidableEq

def BinaryParser.is_end (p : BinaryParser) : Bool :=
  p.data.isEmpty

/-- Modelled from the spec: `read(n)` returns the next `n` bytes and
advances, failing with `OutOfRange` when fewer remain. -/
def BinaryParser.read (p : BinaryParser) (n : Nat) :
    Except SErr (List Nat × BinaryParser) :=
  if n ≤ p.data.length then .ok (p.data.take n, ⟨p.data.drop n⟩)
  else .error (.codec "OutOfRange: end of bytes reached")

/-- Resolve a decoded `(type_code, field_code)` pair through the
registry; `UnknownField` if no entry matches. -/
def resolveField (tc fc : Nat) (rest : List Nat) :
    Except SErr (FieldInstance × BinaryParser) :=
  match get_field_by_code tc fc with
  | some fi => .ok (fi, ⟨rest⟩)
  | none => .error (.codec "UnknownField")

/-- Modelled from the spec: `read_field` header decoding. -/
def BinaryParser.read_field (p : BinaryParser) :
    Except SErr (FieldInstance × BinaryParser) :=
  match p.data with
  | [] => .error (.codec "OutOfRange: end of bytes reached")
  | b :: rest =>
      if b / 16 == 0 then
        (if b % 16 == 0 then
          match rest with
          | t :: f :: rest2 => resolveField t f rest2
          | _ => .error (.codec "OutOfRange: end of bytes reached")
        else
          match rest with
          | t :: rest2 => resolveField t (b % 16) rest2
          | _ => .error (.codec "OutOfRange: end of bytes reached"))
      else if b % 16 == 0 then
        match rest with
        | f :: rest2 => resolveField (b / 16) f rest2
        | _ => .error (.codec "OutOfRange: end of bytes reached")
      else resolveField (b / 16) (b % 16) rest

/-- Modelled from the spec: decode the 1-3 byte variable-length marker
(symmetric to the encoding rule of §4.2). -/
def BinaryParser.read_length (p : BinaryParser) :
    Except SErr (Nat × BinaryParser) :=
  match p.data with
  | [] => .error (.codec "OutOfRange: end of bytes reached")
  | b1 :: rest =>
      if b1 ≤ 192 then .ok (b1, ⟨rest⟩)
      else if b1 ≤ 240 then
        match rest with
        | b2 :: rest2 => .ok (193 + (b1 - 193) * 256 + b2, ⟨rest2⟩)
        | _ => .error (.codec "OutOfRange: end of bytes reached")
      else if b1 ≤ 254 then
        match rest with
        | b2 :: b3 :: rest2 =>
            .ok (12481 + (b1 - 241) * 65536 + b2 * 256 + b3, ⟨rest2⟩)
        | _ => .error (.codec "OutOfRange: end of bytes reached")
      else .error (.codec "Invalid variable length indicator")

/-- The fixed byte width of non-length-prefixed primitive types. -/
def fixedWidth (tn : String) : Option Nat :=
  if tn == "UInt16" then some 2
  else if tn == "UInt32" then some 4
  else if tn == "AccountID" then some 20
  else none

/-- The two operations of the decoding path: `fieldValue` is
`read_field_value` for a resolved field, `dict` is the
`SerializedDict.from_parser` loop (read a field, read its value,
re-serialize both through the writing path, append the object-end
marker after nested objects; stop at the object-end marker or buffer
exhaustion). -/
inductive ParseCall where
  | fieldValue (fi : FieldInstance) (p : BinaryParser)
  | dict (p : BinaryParser) (s : BinarySerializer)

/-- The recursive core of the decoding path, fuel-structural. -/
def parserRun (fuel0 : Nat) (c : ParseCall) :
    Except SErr (List Nat × BinaryParser) :=
  match fuel0, c with
  | 0, _ => .error .fuel
  | fuel + 1, .fieldValue fi p =>
      if fi.is_vl_encoded then
        match p.read_length with
        | .error e => .error e
        | .ok (n, p2) => p2.read n
      else if fi.type == "SerializedDict" then
        parserRun fuel (.dict p { bytesink := [] })
      else
        match fixedWidth fi.type with
        | some n => p.read n
        | none => .error (.codec ("unsupported associated type " ++ fi.type))
  | fuel + 1, .dict p s =>
      if p.is_end then .ok (s.bytesink, p)
      else
        match p.read_field with
        | .error e => .error e
        | .ok (field, p2) =>
          if field.name == "ObjectEndMarker" then .ok (s.bytesink, p2)
          else
            match parserRun fuel (.fieldValue field p2) with
            | .error e => .error e
            | .ok (val, p3) =>
              match s.write_field_and_value field val with
              | .error m => .error (.value m)
              | .ok s2 =>
                let s3 := if field.type == "SerializedDict"
                          then s2.append [OBJECT_END_MARKER_BYTE] else s2
                parserRun fuel (.dict p3 s3)
termination_by structural fuel0

/-- `read_field_value` for a resolved field. -/
def read_field_value (fi : FieldInstance) (p : BinaryParser) (fuel : Nat) :
    Except SErr (List Nat × BinaryParser) :=
  parserRun fuel (.fieldValue fi p)

/-- Embedding of `SerializedDict.from_parser` (on a fresh serializer),
returning the canonicalized bytes and the final cursor. -/
def dictFromParser (p : BinaryParser) (fuel : Nat) :
    Except SErr (List Nat × BinaryParser) :=
  parserRun fuel (.dict p { bytesink := [] })

/-! ### Canonical byte sequences
A structured description of well-formed canonical object bytes: a
sorted list of registry fields, each with value bytes of the right
shape, nested objects recursively canonical and terminated by the
object-end marker. -/

/-- The variable-length marker as a pure byte list (empty above the
encodable maximum, where no canonical encoding exists). -/
def vlMarker (n : Nat) : List Nat :=
  match encodeVariableLength n with
  | .ok lp => lp
  | .error _ => []

/-- The wire bytes of one field: header, optional length marker, value
bytes, and the object-end marker for nested objects. -/
def canonChunk (f : FieldInstance) (b : List Nat) : List Nat :=
  f.header ++ (if f.is_vl_encoded then vlMarker b.length else []) ++ b ++
    (if f.type == "SerializedDict" then [OBJECT_END_MARKER_BYTE] else [])

def canonBytes (pairs : List (FieldInstance × List Nat)) : List Nat :=
  pairs.flatMap (fun q => canonChunk q.1 q.2)

/-- Well-formed canonical field/value lists. -/
inductive Canon : List (FieldInstance × List Nat) → Prop where
  | nil : Canon []
  | consPrim (f : FieldInstance) (b : List Nat)
      (rest : List (FieldInstance × List Nat)) :
      f ∈ field_definitions →
      f.name ≠ "ObjectEndMarker" →
      f.type ≠ "SerializedDict" →
      (if f.is_vl_encoded then b.length ≤ 918744
       else fixedWidth f.type = some b.length) →
      (∀ q ∈ rest, f.ordinal < q.1.ordinal) →
      Canon rest →
      Canon ((f, b) :: rest)
  | consDict (f : FieldInstance) (inner rest : List (FieldInstance × List Nat)) :
      f ∈ field_definitions →
      f.name ≠ "ObjectEndMarker" →
      f.type = "SerializedDict" →
      f.is_vl_encoded = false →
      (∀ q ∈ rest, f.ordinal < q.1.ordinal) →
      Canon inner →
      Canon rest →
      Canon ((f, canonBytes inner) :: rest)

/-! ### Entry-level characterization of the preprocessing loop
These definitions restate what `processEntry` does to a single entry, for
use in theorem statements: the error it raises (if any), independent of
the accumulator, and the key/value pieces it adds. -/

/-- The error, if any, that `processEntry` raises on the entry `(k, v)`;
it depends on the original input dict `whole` but not on the accumulator. -/
def entryErr (whole : List (String × Value)) (k : String) (v : Value) :
    Option SErr :=
  match v with
  | .str (.xaddress classic tag _) =>
      match handle_xaddress k classic tag with
      | .error e => some e
      | .ok handled =>
          if optNotNull (dictGet handled SOURCE_TAG)
              && optNotNull (dictGet whole SOURCE_TAG) then
            some (.codec "Cannot have Account X-Address and SourceTag")
          else if optNotNull (dictGet handled DEST_TAG)
              && optNotNull (dictGet whole DEST_TAG) then
            some (.codec "Cannot have Destination X-Address and DestinationTag")
          else none
  | _ => none

/-- The dict update `processEntry` performs on success. -/
def entryApply (acc : List (String × Value)) (k : String) (v : Value) :
    List (String × Value) :=
  match v with
  | .str (.xaddress classic tag _) =>
      match handle_xaddress k classic tag with
      | .ok handled => dictUpdate acc handled
      | .error _ => acc
  | _ => dictSet acc k (str_to_enum k v)

/-- The entries a non-failing `processEntry` contributes: the decomposed
classic address and tag for an X-address, the enum-translated value
otherwise. -/
def entryPieces (k : String) (v : Value) : List (String × Value) :=
  match v with
  | .str (.xaddress classic tag _) =>
      match handle_xaddress k classic tag with
      | .ok handled => handled
      | .error _ => []
  | _ => [(k, str_to_enum k v)]

def pieceKeys (k : String) (v : Value) : List String :=
  (entryPieces k v).map (fun p => p.1)

/-- Whether an error is one of the two `ConflictingTagError` messages. -/
def isConflictErr (e : SErr) : Bool :=
  e == .codec "Cannot have Account X-Address and SourceTag"
    || e == .codec "Cannot have Destination X-Address and DestinationTag"

/-- A concrete X-address: classic address `rrrrrrrrrrrrrrrrrrrrrhoLvTp`
with tag 5, main network. -/
def xaddrTag5 : Value :=
  .str (.xaddress "rrrrrrrrrrrrrrrrrrrrrhoLvTp" (some 5) false)

/-- The same X-address without a tag. -/
def xaddrNoTag : Value :=
  .str (.xaddress "rrrrrrrrrrrrrrrrrrrrrhoLvTp" none false)

/-! ## Theorems -/

/-- C1: the variable-length prefix is one byte `L` for `L ≤ 192`, two
bytes `[193 + ((L-193) >> 8), (L-193) & 0xFF]` for `193 ≤ L ≤ 12480`,
three bytes `[241 + ((L-12481) >> 16), ((L-12481) >> 8) & 0xFF,
(L-12481) & 0xFF]` for `12481 ≤ L ≤ 918744`, and an error (FieldTooLong)
beyond; the boundary lengths 192, 193, 12480, 12481, 918744 produce 1-,
2-, 2-, 3-, 3-byte markers and 918745 fails. -/
theorem C1_variable_length_boundaries :
    (∀ L : Nat, L ≤ 192 → encodeVariableLength L = .ok [L])
    ∧ (∀ L : Nat, 193 ≤ L → L ≤ 12480 →
        encodeVariableLength L = .ok [193 + ((L - 193) >>> 8), (L - 193) % 256])
    ∧ (∀ L : Nat, 12481 ≤ L → L ≤ 918744 →
        encodeVariableLength L =
          .ok [241 + ((L - 12481) >>> 16), ((L - 12481) >>> 8) % 256,
               (L - 12481) % 256])
    ∧ (∀ L : Nat, 918744 < L → ∃ msg, encodeVariableLength L = .error msg)
    ∧ ((encodeVariableLength 192).toOption.map List.length = some 1)
    ∧ ((encodeVariableLength 193).toOption.map List.length = some 2)
    ∧ ((encodeVariableLength 12480).toOption.map List.length = some 2)
    ∧ ((encodeVariableLength 12481).toOption.map List.length = some 3)
    ∧ ((encodeVariableLength 918744).toOption.map List.length = some 3)
    ∧ (∃ msg, encodeVariableLength 918745 = .error msg) := by
  refine ⟨?_, ?_, ?_, ?_, by decide, by decide, by decide, by decide, by decide,
    ⟨"VariableLength field must be <= 918744 bytes long", by decide⟩⟩
  · intro L h
    rw [encodeVariableLength, if_pos (by simpa [MAX_SINGLE_BYTE_LENGTH] using h)]
  · intro L h1 h2
    rw [encodeVariableLength,
      if_neg (by simp only [MAX_SINGLE_BYTE_LENGTH]; omega),
      if_pos (by simp only [MAX_DOUBLE_BYTE_LENGTH]; omega)]
    simp only [MAX_SINGLE_BYTE_LENGTH]
    rw [Nat.add_comm]
  · intro L h1 h2
    rw [encodeVariableLength,
      if_neg (by simp only [MAX_SINGLE_BYTE_LENGTH]; omega),
      if_neg (by simp only [MAX_DOUBLE_BYTE_LENGTH]; omega),
      if_pos (by simpa [MAX_LENGTH_VALUE] using h2)]
    simp only [MAX_DOUBLE_BYTE_LENGTH, MAX_SECOND_BYTE_VALUE]
  · intro L h
    refine ⟨"VariableLength field must be <= 918744 bytes long", ?_⟩
    rw [encodeVariableLength,
      if_neg (by simp only [MAX_SINGLE_BYTE_LENGTH]; omega),
      if_neg (by simp only [MAX_DOUBLE_BYTE_LENGTH]; omega),
      if_neg (by simp only [MAX_LENGTH_VALUE]; omega)]

/-- Witness for C1 at the concrete length 300. -/
theorem C1_variable_length_boundaries_witness :
    encodeVariableLength 300 = .ok [193, 107] := by
  have h := C1_variable_length_boundaries.2.1 300 (by decide) (by decide)
  simpa using h

/-- C9 as stated is false: `append` with the empty byte string is an
operation after which the previously held byte sequence is not a strict
prefix of (it is equal to) the new one. -/
theorem C9_counterexample :
    ¬ ((BinarySerializer.mk []).bytesink <+:
          ((BinarySerializer.mk []).append []).bytesink
       ∧ (BinarySerializer.mk []).bytesink ≠
          ((BinarySerializer.mk []).append []).bytesink) := by
  intro h
  exact h.2 rfl

/-- C9 amended: every operation leaves the old byte sequence a prefix of
the new one (no operation modifies or removes previously written bytes);
the extension is strict for `append` of nonempty bytes, always strict for
a successful `write_length_encoded`, and strict for a successful
`write_field_and_value` whenever the field's header is nonempty. -/
theorem C9_amended_append_only :
    (∀ (s : BinarySerializer) (b : List Nat),
        s.bytesink <+: (s.append b).bytesink
        ∧ (b ≠ [] → s.bytesink ≠ (s.append b).bytesink))
    ∧ (∀ (s s' : BinarySerializer) (v : List Nat),
        s.write_length_encoded v = .ok s' →
        s.bytesink <+: s'.bytesink ∧ s.bytesink ≠ s'.bytesink)
    ∧ (∀ (s s' : BinarySerializer) (f : FieldInstance) (v : List Nat),
        s.write_field_and_value f v = .ok s' →
        s.bytesink <+: s'.bytesink
        ∧ (f.header ≠ [] → s.bytesink ≠ s'.bytesink)) := by
  have hwle : ∀ (s' : BinarySerializer) (pre : List Nat) (v : List Nat),
      BinarySerializer.write_length_encoded { bytesink := pre } v = .ok s' →
      ∃ lp, encodeVariableLength v.length = .ok lp ∧ lp ≠ []
        ∧ s'.bytesink = pre ++ lp ++ v := by
    intro s' pre v h
    rw [BinarySerializer.write_length_encoded] at h
    rcases he : encodeVariableLength v.length with e | lp
    · rw [he] at h; cases h
    · rw [he] at h
      cases h
      refine ⟨lp, rfl, ?_, rfl⟩
      rw [encodeVariableLength] at he
      split at he
      · cases he; simp
      · split at he
        · cases he; simp
        · split at he
          · cases he; simp
          · cases he
  refine ⟨?_, ?_, ?_⟩
  · intro s b
    refine ⟨⟨b, rfl⟩, ?_⟩
    intro hb h
    have := congrArg List.length h
    simp [BinarySerializer.append] at this
    exact hb this
  · intro s s' v h
    obtain ⟨lp, _, hne, hb⟩ := hwle s' s.bytesink v h
    constructor
    · rw [hb]; exact ⟨lp ++ v, by simp⟩
    · intro heq
      have := congrArg List.length (hb ▸ heq)
      simp at this
      obtain ⟨h1, _⟩ := this
      exact hne h1
  · intro s s' f v h
    rw [BinarySerializer.write_field_and_value] at h
    split at h
    · obtain ⟨lp, _, hne, hb⟩ := hwle s' (s.bytesink ++ f.header) v h
      constructor
      · rw [hb]; exact ⟨f.header ++ lp ++ v, by simp⟩
      · intro _ heq
        have := congrArg List.length (hb ▸ heq)
        simp at this
        obtain ⟨_, h2, _⟩ := this
        exact hne h2
    · cases h
      constructor
      · exact ⟨f.header ++ v, by simp⟩
      · intro hh heq
        have := congrArg List.length heq
        simp [BinarySerializer.append] at this
        exact hh this.1

/-- Witness for C9 amended: write the `SourceTag` field with value bytes
`[0,0,0,5]` onto an empty serializer. -/
theorem C9_amended_append_only_witness :
    (BinarySerializer.mk []).bytesink <+:
        (BinarySerializer.mk [0x23, 0, 0, 0, 5]).bytesink
    ∧ (SourceTagField.header ≠ [] →
        (BinarySerializer.mk []).bytesink ≠
          (BinarySerializer.mk [0x23, 0, 0, 0, 5]).bytesink) :=
  C9_amended_append_only.2.2 ⟨[]⟩ ⟨[0x23, 0, 0, 0, 5]⟩ SourceTagField [0, 0, 0, 5]
    (by rfl)

/-- C10: `AccountID.from_value` maps the empty string to twenty zero
bytes; any string matching `[A-F0-9]{40}` is decoded directly as hex,
with the classic-address decoder never consulted; every other string is
passed to the classic-address decoder, and in particular a 40-character
lowercase-hex string is not treated as hex. -/
theorem C10_account_id_from_value :
    (∀ dec, accountIDFromValue dec "" = .ok (List.replicate 20 0))
    ∧ (∀ dec s, hexMatch40 s = true →
        accountIDFromValue dec s = .ok (hexToBytes s.toList))
    ∧ (∀ dec s, s ≠ "" → hexMatch40 s = false → accountIDFromValue dec s = dec s)
    ∧ (hexMatch40 "aaaaaaaaaaaaaaaaaaaaaaaaaaaaaaaaaaaaaaaa" = false)
    ∧ (∀ dec, accountIDFromValue dec "aaaaaaaaaaaaaaaaaaaaaaaaaaaaaaaaaaaaaaaa" =
        dec "aaaaaaaaaaaaaaaaaaaaaaaaaaaaaaaaaaaaaaaa") := by
  refine ⟨?_, ?_, ?_, by decide, ?_⟩
  · intro dec
    rw [accountIDFromValue, if_pos rfl]
  · intro dec s h
    have h1 : s ≠ "" := by
      intro he
      rw [he] at h
      exact absurd h (by decide)
    rw [accountIDFromValue, if_neg h1]
    simp [h]
  · intro dec s h1 h2
    rw [accountIDFromValue, if_neg h1, if_neg (by simp [h2])]
  · intro dec
    rw [accountIDFromValue, if_neg (by decide), if_neg (by decide)]

/-- Witness for C10: a concrete uppercase-hex string of forty characters
decodes directly as hex. -/
theorem C10_account_id_from_value_witness :
    accountIDFromValue (fun s => .error (s ++ " is not a valid classic address"))
        "00000000000000000000000000000000000000AB" =
      .ok (List.replicate 19 0 ++ [171]) := by
  have h := C10_account_id_from_value.2.1
    (fun s => .error (s ++ " is not a valid classic address"))
    "00000000000000000000000000000000000000AB" (by decide)
  rw [h]
  decide

/-- C5: `_handle_xaddress` fails with `AmbiguousTagError` exactly on a
present tag under any field other than `Account` and `Destination`; under
`Account` the tag maps to `SourceTag`, under `Destination` to
`DestinationTag`; and an X-address without a tag decomposes to just the
classic address under any field. -/
theorem C5_handle_xaddress :
    (∀ (field classic : String) (t : Nat), field ≠ ACCOUNT → field ≠ DESTINATION →
        handle_xaddress field classic (some t) =
          .error (.codec (field ++ " cannot have an associated tag")))
    ∧ (∀ (classic : String) (t : Nat),
        handle_xaddress ACCOUNT classic (some t) =
          .ok [(ACCOUNT, .str (.plain classic)), (SOURCE_TAG, .int t)])
    ∧ (∀ (classic : String) (t : Nat),
        handle_xaddress DESTINATION classic (some t) =
          .ok [(DESTINATION, .str (.plain classic)), (DEST_TAG, .int t)])
    ∧ (∀ (field classic : String),
        handle_xaddress field classic none =
          .ok [(field, .str (.plain classic))]) := by
  refine ⟨?_, ?_, ?_, ?_⟩
  · intro field classic t ha hd
    rw [handle_xaddress, if_neg (by simp [hd]), if_neg (by simp [ha])]
  · intro classic t
    rw [handle_xaddress, if_neg (by decide), if_pos (by decide)]
  · intro classic t
    rw [handle_xaddress, if_pos (by decide)]
  · intro field classic
    rw [handle_xaddress]
    split
    · rfl
    · split
      · rfl
      · rfl

/-- Witness for C5 at the concrete field `Fee`, classic address
`rrrrrrrrrrrrrrrrrrrrrhoLvTp`, tag `7`. -/
theorem C5_handle_xaddress_witness :
    handle_xaddress "Fee" "rrrrrrrrrrrrrrrrrrrrrhoLvTp" (some 7) =
      .error (.codec ("Fee" ++ " cannot have an associated tag")) :=
  C5_handle_xaddress.1 "Fee" "rrrrrrrrrrrrrrrrrrrrrhoLvTp" 7 (by decide) (by decide)

/-! ### Dict and preprocessing lemmas -/

theorem dictContains_true_iff (d : List (String × Value)) (k : String) :
    dictContains d k = true ↔ k ∈ d.map (fun p => p.1) := by
  rw [dictContains, List.any_eq_true]
  simp only [List.mem_map, beq_iff_eq]

theorem dictContains_false_iff (d : List (String × Value)) (k : String) :
    dictContains d k = false ↔ k ∉ d.map (fun p => p.1) := by
  rw [Bool.eq_false_iff]
  exact not_congr ⟨fun h => (dictContains_true_iff d k).mp h,
    fun h => (dictContains_true_iff d k).mpr h⟩

theorem dictSet_fresh (acc : List (String × Value)) (k : String) (v : Value)
    (h : k ∉ acc.map (fun p => p.1)) :
    dictSet acc k v = acc ++ [(k, v)] := by
  rw [dictSet, if_neg]
  rw [← dictContains_false_iff] at h
  simp [h]

theorem dictUpdate_fresh :
    ∀ (upd acc : List (String × Value)),
      (∀ p ∈ upd, p.1 ∉ acc.map (fun q => q.1)) →
      (upd.map (fun p => p.1)).Nodup →
      dictUpdate acc upd = acc ++ upd := by
  intro upd
  induction upd with
  | nil => intro acc _ _; simp [dictUpdate]
  | cons p rest ih =>
      intro acc hfresh hnd
      obtain ⟨k, v⟩ := p
      have h1 : dictSet acc k v = acc ++ [(k, v)] :=
        dictSet_fresh acc k v (hfresh (k, v) (by simp))
      have h2 : dictUpdate acc ((k, v) :: rest) =
          dictUpdate (dictSet acc k v) rest := rfl
      rw [h2, h1]
      rw [List.map_cons, List.nodup_cons] at hnd
      rw [ih (acc ++ [(k, v)]) ?_ hnd.2]
      · simp
      · intro q hq
        simp only [List.map_append, List.mem_append, List.map_cons]
        rintro (hacc | hk)
        · exact hfresh q (by simp [hq]) hacc
        · simp at hk
          exact hnd.1 (hk ▸ List.mem_map_of_mem (fun p => p.1) hq)

theorem find?_eq_of_perm_nodupkeys {d₁ d₂ : List (String × Value)}
    (h : d₁.Perm d₂) (hn : (d₁.map (fun p => p.1)).Nodup) (k : String) :
    d₁.find? (fun p => p.1 == k) = d₂.find? (fun p => p.1 == k) := by
  cases h1 : d₁.find? (fun p => p.1 == k) with
  | none =>
      rw [List.find?_eq_none] at h1
      have h2 : d₂.find? (fun p => p.1 == k) = none :=
        List.find?_eq_none.mpr (fun x hx => h1 x (h.symm.subset hx))
      rw [h2]
  | some a =>
      have ha := List.mem_of_find?_eq_some h1
      have hpa := List.find?_some h1
      cases h2 : d₂.find? (fun p => p.1 == k) with
      | none =>
          rw [List.find?_eq_none] at h2
          exact absurd hpa (h2 a (h.subset ha))
      | some b =>
          have hb := List.mem_of_find?_eq_some h2
          have hpb := List.find?_some h2
          have hb1 : b ∈ d₁ := h.symm.subset hb
          have hab : a = b := by
            refine List.inj_on_of_nodup_map hn ha hb1 ?_
            rw [beq_iff_eq] at hpa hpb
            rw [hpa, hpb]
          rw [hab]

theorem dictGet_eq_of_perm {d₁ d₂ : List (String × Value)}
    (h : d₁.Perm d₂) (hn : (d₁.map (fun p => p.1)).Nodup) (k : String) :
    dictGet d₁ k = dictGet d₂ k := by
  rw [dictGet, dictGet, find?_eq_of_perm_nodupkeys h hn k]

theorem processEntry_eq (whole acc : List (String × Value)) (k : String)
    (v : Value) :
    processEntry whole acc k v =
      match entryErr whole k v with
      | some e => .error e
      | none => .ok (entryApply acc k v) := by
  cases v with
  | null => rfl
  | int n => rfl
  | obj entries => rfl
  | str sv =>
      cases sv with
      | plain s => rfl
      | xaddress classic tag it =>
          rw [processEntry, entryErr, entryApply]
          cases hh : handle_xaddress k classic tag with
          | error e => rfl
          | ok handled =>
              by_cases h1 : (optNotNull (dictGet handled SOURCE_TAG)
                  && optNotNull (dictGet whole SOURCE_TAG)) = true
              · simp [h1]
              · by_cases h2 : (optNotNull (dictGet handled DEST_TAG)
                    && optNotNull (dictGet whole DEST_TAG)) = true
                · simp [h1, h2]
                · simp [h1, h2]

theorem entryApply_append (acc : List (String × Value)) (k : String) (v : Value)
    (hfresh : ∀ key ∈ pieceKeys k v, key ∉ acc.map (fun p => p.1))
    (hnd : (pieceKeys k v).Nodup) :
    entryApply acc k v = acc ++ entryPieces k v := by
  cases v with
  | null =>
      simp only [entryApply, entryPieces]
      exact dictSet_fresh acc k _ (hfresh k (by simp [pieceKeys, entryPieces]))
  | int n =>
      simp only [entryApply, entryPieces]
      exact dictSet_fresh acc k _ (hfresh k (by simp [pieceKeys, entryPieces]))
  | obj entries =>
      simp only [entryApply, entryPieces]
      exact dictSet_fresh acc k _ (hfresh k (by simp [pieceKeys, entryPieces]))
  | str sv =>
      cases sv with
      | plain s =>
          simp only [entryApply, entryPieces]
          exact dictSet_fresh acc k _ (hfresh k (by simp [pieceKeys, entryPieces]))
      | xaddress classic tag it =>
          cases hh : handle_xaddress k classic tag with
          | error e => simp [entryApply, entryPieces, hh]
          | ok handled =>
              have hp : entryPieces k (.str (.xaddress classic tag it)) = handled := by
                simp [entryPieces, hh]
              have hk : pieceKeys k (.str (.xaddress classic tag it)) =
                  handled.map (fun p => p.1) := by
                rw [pieceKeys, hp]
              simp only [entryApply, hh, hp]
              exact dictUpdate_fresh handled acc
                (fun p hmem => hfresh p.1 (by rw [hk]; exact List.mem_map_of_mem _ hmem))
                (by rwa [hk] at hnd)

theorem foldl_entryApply_append :
    ∀ (d acc : List (String × Value)),
      ((acc.map (fun p => p.1)) ++ d.flatMap (fun p => pieceKeys p.1 p.2)).Nodup →
      d.foldl (fun a p => entryApply a p.1 p.2) acc =
        acc ++ d.flatMap (fun p => entryPieces p.1 p.2) := by
  intro d
  induction d with
  | nil => intro acc _; simp
  | cons p rest ih =>
      intro acc hnd
      obtain ⟨k, v⟩ := p
      rw [List.flatMap_cons] at hnd
      have hnd2 := hnd
      rw [List.nodup_append] at hnd2
      obtain ⟨hA, hBC, hdisj⟩ := hnd2
      rw [List.nodup_append] at hBC
      have hfresh : ∀ key ∈ pieceKeys k v, key ∉ acc.map (fun p => p.1) := by
        intro key hkey hmem
        exact hdisj hmem (List.mem_append_left _ hkey)
      rw [List.foldl_cons, entryApply_append acc k v hfresh hBC.1]
      rw [ih (acc ++ entryPieces k v) ?_]
      · rw [List.flatMap_cons, List.append_assoc]
      · rw [List.map_append]
        have : (entryPieces k v).map (fun p => p.1) = pieceKeys k v := rfl
        rw [this, List.append_assoc]
        exact hnd

theorem map_fst_flatMap_pieces (d : List (String × Value)) :
    (d.flatMap (fun p => entryPieces p.1 p.2)).map (fun p => p.1) =
      d.flatMap (fun p => pieceKeys p.1 p.2) := by
  rw [List.map_flatMap]
  exact List.flatMap_congr (fun x _ => rfl)

theorem preprocess_ok_foldl (whole : List (String × Value)) :
    ∀ (d acc : List (String × Value)),
      (∀ p ∈ d, entryErr whole p.1 p.2 = none) →
      preprocess whole d acc =
        .ok (d.foldl (fun a p => entryApply a p.1 p.2) acc) := by
  intro d
  induction d with
  | nil => intro acc _; rfl
  | cons p rest ih =>
      intro acc h
      obtain ⟨k, v⟩ := p
      have h0 : entryErr whole k v = none := h (k, v) (by simp)
      rw [preprocess, processEntry_eq, h0]
      exact ih _ (fun q hq => h q (by simp [hq]))

/-- When no entry raises and all decomposed keys are globally fresh,
`xaddress_decoded` is the concatenation of every entry's pieces. -/
theorem preprocess_pieces (d : List (String × Value))
    (herr : ∀ p ∈ d, entryErr d p.1 p.2 = none)
    (hnd : (d.flatMap (fun p => pieceKeys p.1 p.2)).Nodup) :
    preprocess d d [] = .ok (d.flatMap (fun p => entryPieces p.1 p.2)) := by
  rw [preprocess_ok_foldl d d [] herr, foldl_entryApply_append d [] (by simpa using hnd)]
  simp

/-- `preprocess` fails with `e` exactly when some entry raises `e` and
every earlier entry raises nothing. -/
theorem preprocess_error_iff (whole : List (String × Value)) :
    ∀ (d acc : List (String × Value)) (e : SErr),
      preprocess whole d acc = .error e ↔
        ∃ pre kv post, d = pre ++ kv :: post
          ∧ (∀ q ∈ pre, entryErr whole q.1 q.2 = none)
          ∧ entryErr whole kv.1 kv.2 = some e := by
  intro d
  induction d with
  | nil =>
      intro acc e
      constructor
      · intro h; cases h
      · rintro ⟨pre, kv, post, habs, -, -⟩
        cases pre <;> simp at habs
  | cons p rest ih =>
      intro acc e
      obtain ⟨k, v⟩ := p
      cases h0 : entryErr whole k v with
      | some e0 =>
          rw [preprocess, processEntry_eq, h0]
          constructor
          · intro h
            have h2 : (Except.error e0 : Except SErr (List (String × Value))) =
                .error e := h
            have he : e0 = e := by
              injection h2
            rw [he] at h0
            exact ⟨[], (k, v), rest, by simp, by simp, h0⟩
          · rintro ⟨pre, kv, post, heq, hpre, hkv⟩
            cases pre with
            | nil =>
                have h1 := congrArg List.head? heq
                simp at h1
                rw [← h1] at hkv
                simp only at hkv
                rw [h0] at hkv
                have : e0 = e := by injection hkv
                rw [this]
            | cons q pre2 =>
                have h1 := congrArg List.head? heq
                simp at h1
                have hnone := hpre q (by simp)
                rw [← h1] at hnone
                simp only at hnone
                rw [h0] at hnone
                cases hnone
      | none =>
          rw [preprocess, processEntry_eq, h0]
          rw [ih]
          constructor
          · rintro ⟨pre, kv, post, heq, hpre, hkv⟩
            refine ⟨(k, v) :: pre, kv, post, by simp [heq], ?_, hkv⟩
            intro q hq
            rcases List.mem_cons.mp hq with hqh | hqt
            · rw [hqh]; simp only; exact h0
            · exact hpre q hqt
          · rintro ⟨pre, kv, post, heq, hpre, hkv⟩
            cases pre with
            | nil =>
                have h1 := congrArg List.head? heq
                simp at h1
                rw [← h1] at hkv
                simp only at hkv
                rw [h0] at hkv
                cases hkv
            | cons q pre2 =>
                have h2 := congrArg List.tail heq
                simp at h2
                exact ⟨pre2, kv, post, h2, fun r hr => hpre r (by simp [hr]), hkv⟩

theorem entryErr_congr {w₁ w₂ : List (String × Value)}
    (h : ∀ k, dictGet w₁ k = dictGet w₂ k) (k : String) (v : Value) :
    entryErr w₁ k v = entryErr w₂ k v := by
  cases v with
  | null => rfl
  | int n => rfl
  | obj entries => rfl
  | str sv =>
      cases sv with
      | plain s => rfl
      | xaddress classic tag it =>
          rw [entryErr, entryErr, h SOURCE_TAG, h DEST_TAG]

/-! ### Registry, selection and sorting lemmas -/

theorem get_field_instance_name {name : String} {fi : FieldInstance}
    (h : get_field_instance name = some fi) : fi.name = name := by
  have := List.find?_some h
  simpa using this

theorem get_field_instance_mem {name : String} {fi : FieldInstance}
    (h : get_field_instance name = some fi) : fi ∈ field_definitions :=
  List.mem_of_find?_eq_some h

theorem registry_ordinal_inj :
    ∀ f ∈ field_definitions, ∀ g ∈ field_definitions,
      f.name ≠ g.name → f.ordinal ≠ g.ordinal := by decide

theorem selectKeys_mem_iff (decoded : List (String × Value)) (fi : FieldInstance) :
    fi ∈ selectKeys decoded ↔
      fi.name ∈ decoded.map (fun p => p.1)
        ∧ get_field_instance fi.name = some fi
        ∧ optNotNull (dictGet decoded fi.name) = true
        ∧ fi.is_serialized = true := by
  rw [selectKeys, List.mem_filterMap]
  constructor
  · rintro ⟨k, hk, hf⟩
    cases hg : get_field_instance k with
    | none => rw [hg] at hf; cases hf
    | some fj =>
        rw [hg] at hf
        have hf2 : (if (optNotNull (dictGet decoded fj.name) && fj.is_serialized) = true
            then some fj else none) = some fi := hf
        by_cases hc : (optNotNull (dictGet decoded fj.name) && fj.is_serialized) = true
        · rw [if_pos hc] at hf2
          have hf3 : fj = fi := by injection hf2
          rw [hf3] at hg hc
          have hname : fi.name = k := get_field_instance_name hg
          rw [hname]
          have hc2 : optNotNull (dictGet decoded fi.name) = true
              ∧ fi.is_serialized = true := by simpa using hc
          exact ⟨hk, hg, by rw [hname] at hc2; exact hc2.1, hc2.2⟩
        · rw [if_neg hc] at hf2
          cases hf2
  · rintro ⟨hmem, hg, hnn, hser⟩
    refine ⟨fi.name, hmem, ?_⟩
    rw [hg]
    show (if (optNotNull (dictGet decoded fi.name) && fi.is_serialized) = true
        then some fi else none) = some fi
    rw [hnn, hser]
    rfl

theorem filterMap_pairwise_names {f : String → Option FieldInstance}
    (hf : ∀ k fi, f k = some fi → fi.name = k) :
    ∀ (l : List String), l.Nodup →
      (l.filterMap f).Pairwise (fun a b => a.name ≠ b.name) := by
  intro l
  induction l with
  | nil => intro _; simp
  | cons k rest ih =>
      intro hnd
      rw [List.nodup_cons] at hnd
      rw [List.filterMap_cons]
      cases hg : f k with
      | none => exact ih hnd.2
      | some fi =>
          refine List.Pairwise.cons ?_ (ih hnd.2)
          intro g hgmem
          obtain ⟨k2, hk2, hg2⟩ := List.mem_filterMap.mp hgmem
          rw [hf k fi hg, hf k2 g hg2]
          intro he
          exact hnd.1 (he ▸ hk2)

theorem selectKeys_pairwise_names (decoded : List (String × Value))
    (hnd : (decoded.map (fun p => p.1)).Nodup) :
    (selectKeys decoded).Pairwise (fun a b => a.name ≠ b.name) := by
  rw [selectKeys]
  refine filterMap_pairwise_names ?_ _ hnd
  intro k fi hf
  cases hg : get_field_instance k with
  | none => rw [hg] at hf; cases hf
  | some fj =>
      rw [hg] at hf
      have hf2 : (if (optNotNull (dictGet decoded fj.name) && fj.is_serialized) = true
          then some fj else none) = some fi := hf
      split at hf2
      · injection hf2 with hf3
        rw [← hf3]
        exact get_field_instance_name hg
      · cases hf2

theorem selectKeys_mem_registry {decoded : List (String × Value)}
    {fi : FieldInstance} (h : fi ∈ selectKeys decoded) :
    fi ∈ field_definitions :=
  get_field_instance_mem ((selectKeys_mem_iff decoded fi).mp h).2.1

theorem selectKeys_pairwise_ordinal (decoded : List (String × Value))
    (hnd : (decoded.map (fun p => p.1)).Nodup) :
    (selectKeys decoded).Pairwise (fun a b => a.ordinal ≠ b.ordinal) := by
  refine List.Pairwise.imp_of_mem ?_ (selectKeys_pairwise_names decoded hnd)
  intro a b ha hb hne
  exact registry_ordinal_inj a (selectKeys_mem_registry ha) b
    (selectKeys_mem_registry hb) hne

theorem sortFields_perm (l : List FieldInstance) : (sortFields l).Perm l :=
  List.perm_insertionSort _ l

theorem sortFields_sorted (l : List FieldInstance) :
    (sortFields l).Pairwise (fun a b => a.ordinal ≤ b.ordinal) := by
  haveI : IsTotal FieldInstance (fun a b => a.ordinal ≤ b.ordinal) :=
    ⟨fun a b => Nat.le_total _ _⟩
  haveI : IsTrans FieldInstance (fun a b => a.ordinal ≤ b.ordinal) :=
    ⟨fun a b c hab hbc => Nat.le_trans hab hbc⟩
  exact List.sorted_insertionSort _ l

theorem sortFields_eq_of_perm {l₁ l₂ : List FieldInstance} (h : l₁.Perm l₂)
    (hnd : l₁.Pairwise (fun a b => a.ordinal ≠ b.ordinal)) :
    sortFields l₁ = sortFields l₂ := by
  have hp : (sortFields l₁).Perm (sortFields l₂) :=
    (sortFields_perm l₁).trans (h.trans (sortFields_perm l₂).symm)
  have hsymm : ∀ {x y : FieldInstance},
      x.ordinal ≠ y.ordinal → y.ordinal ≠ x.ordinal := fun hne => hne.symm
  have hnd1 : (sortFields l₁).Pairwise (fun a b => a.ordinal ≠ b.ordinal) :=
    (((sortFields_perm l₁).pairwise_iff hsymm).mpr hnd)
  have hnd2 : (sortFields l₂).Pairwise (fun a b => a.ordinal ≠ b.ordinal) :=
    (((sortFields_perm l₂).pairwise_iff hsymm).mpr ((h.pairwise_iff hsymm).mp hnd))
  have hs1 : (sortFields l₁).Pairwise (fun a b => a.ordinal < b.ordinal) :=
    ((sortFields_sorted l₁).and hnd1).imp
      (fun hx => lt_of_le_of_ne hx.1 hx.2)
  have hs2 : (sortFields l₂).Pairwise (fun a b => a.ordinal < b.ordinal) :=
    ((sortFields_sorted l₂).and hnd2).imp
      (fun hx => lt_of_le_of_ne hx.1 hx.2)
  haveI : IsAntisymm FieldInstance (fun a b => a.ordinal < b.ordinal) :=
    ⟨fun a b h1 h2 => absurd (h1.trans h2) (lt_irrefl _)⟩
  exact List.eq_of_perm_of_sorted hp hs1 hs2

theorem writeSortedFields_congr {dec₁ dec₂ : List (String × Value)}
    (h : ∀ k, dictGet dec₁ k = dictGet dec₂ k) :
    ∀ (fuel : Nat) (fields : List FieldInstance) (s : BinarySerializer),
      writeSortedFields dec₁ fields s fuel = writeSortedFields dec₂ fields s fuel := by
  intro fuel
  induction fuel with
  | zero => intro fields s; cases fields <;> rfl
  | succ n ih =>
      intro fields s
      cases fields with
      | nil => rfl
      | cons f rest =>
          show codecRun (n + 1) (.writeFields dec₁ (f :: rest) s) =
            codecRun (n + 1) (.writeFields dec₂ (f :: rest) s)
          rw [codecRun, codecRun, ← h f.name]
          split
          · rfl
          · split
            · rfl
            · rfl
            · split
              · rfl
              · exact ih rest _

theorem dictFromValue_ok_form (d : List (String × Value)) (os : Bool) (n : Nat)
    (dec : List (String × Value)) (h : preprocess d d [] = .ok dec) :
    dictFromValue d os (n + 1) =
      writeSortedFields dec
        (if os then (sortFields (selectKeys dec)).filter (fun f => f.is_signing)
         else sortFields (selectKeys dec)) { bytesink := [] } n := by
  show codecRun (n + 1) (.dict d os) = _
  rw [codecRun, h]
  rfl

theorem selectKeys_perm {dec₁ dec₂ : List (String × Value)}
    (hperm : dec₁.Perm dec₂) (hkeys : (dec₁.map (fun p => p.1)).Nodup) :
    (selectKeys dec₁).Perm (selectKeys dec₂) := by
  have hget : ∀ k, dictGet dec₁ k = dictGet dec₂ k :=
    fun k => dictGet_eq_of_perm hperm hkeys k
  rw [selectKeys, selectKeys]
  have hfun : (fun field_name => match get_field_instance field_name with
      | some fi =>
          if optNotNull (dictGet dec₁ fi.name) && fi.is_serialized then some fi
          else none
      | none => none) = (fun field_name => match get_field_instance field_name with
      | some fi =>
          if optNotNull (dictGet dec₂ fi.name) && fi.is_serialized then some fi
          else none
      | none => none) := by
    funext k
    cases get_field_instance k with
    | none => rfl
    | some fi =>
        show (if optNotNull (dictGet dec₁ fi.name) && fi.is_serialized then some fi
            else none) =
          (if optNotNull (dictGet dec₂ fi.name) && fi.is_serialized then some fi
            else none)
        rw [hget fi.name]
  rw [hfun]
  exact List.Perm.filterMap _ (hperm.map _)

/-- C2 as stated is false: two maps with the same entries in different
insertion order can serialize differently.  With a tagged Account
X-address and an explicit null `SourceTag`, the order decides whether
the decomposed tag survives (the later null entry overwrites it). -/
theorem C2_counterexample :
    ([("Account", xaddrTag5), ("SourceTag", Value.null)] :
        List (String × Value)).Perm
      [("SourceTag", Value.null), ("Account", xaddrTag5)]
    ∧ dictFromValue [("Account", xaddrTag5), ("SourceTag", Value.null)] false 10
        ≠ dictFromValue [("SourceTag", Value.null), ("Account", xaddrTag5)] false 10
    := by
  constructor
  · exact List.Perm.swap _ _ _
  · decide

/-- C2 amended: insertion-order independence holds whenever the input
map's keys are unique, the keys contributed by X-address decomposition
are globally fresh (no decomposed tag key collides with an existing
key), and no entry raises a tag error; under those conditions any
permutation of the entries yields the identical result.  Moreover the
serialized fields are always emitted in ascending ordinal
(type_code, field_code) order. -/
theorem C2_amended_order_independence :
    (∀ (d₁ d₂ : List (String × Value)) (os : Bool) (fuel : Nat),
        d₁.Perm d₂ →
        (d₁.map (fun p => p.1)).Nodup →
        (d₁.flatMap (fun p => pieceKeys p.1 p.2)).Nodup →
        (∀ p ∈ d₁, entryErr d₁ p.1 p.2 = none) →
        dictFromValue d₁ os fuel = dictFromValue d₂ os fuel)
    ∧ (∀ (decoded : List (String × Value)) (os : Bool),
        (if os then (sortFields (selectKeys decoded)).filter (fun f => f.is_signing)
         else sortFields (selectKeys decoded)).Pairwise
          (fun a b => a.ordinal ≤ b.ordinal)) := by
  constructor
  · intro d₁ d₂ os fuel hperm hkeys hpieces herr
    cases fuel with
    | zero => rfl
    | succ n =>
        have hget : ∀ k, dictGet d₁ k = dictGet d₂ k :=
          fun k => dictGet_eq_of_perm hperm hkeys k
        have herr₂ : ∀ p ∈ d₂, entryErr d₂ p.1 p.2 = none := by
          intro p hp
          rw [← entryErr_congr hget p.1 p.2]
          exact herr p (hperm.symm.subset hp)
        have hpieces₂ : (d₂.flatMap (fun p => pieceKeys p.1 p.2)).Nodup :=
          (List.Perm.flatMap_right _ hperm).nodup hpieces
        have hp₁ := preprocess_pieces d₁ herr hpieces
        have hp₂ := preprocess_pieces d₂ herr₂ hpieces₂
        rw [dictFromValue_ok_form d₁ os n _ hp₁, dictFromValue_ok_form d₂ os n _ hp₂]
        have hpermdec : (d₁.flatMap (fun p => entryPieces p.1 p.2)).Perm
            (d₂.flatMap (fun p => entryPieces p.1 p.2)) :=
          List.Perm.flatMap_right _ hperm
        have hkeysdec :
            ((d₁.flatMap (fun p => entryPieces p.1 p.2)).map (fun p => p.1)).Nodup := by
          rw [map_fst_flatMap_pieces]
          exact hpieces
        have hgetdec : ∀ k,
            dictGet (d₁.flatMap (fun p => entryPieces p.1 p.2)) k =
              dictGet (d₂.flatMap (fun p => entryPieces p.1 p.2)) k :=
          fun k => dictGet_eq_of_perm hpermdec hkeysdec k
        have hsorteq : sortFields (selectKeys (d₁.flatMap (fun p => entryPieces p.1 p.2)))
            = sortFields (selectKeys (d₂.flatMap (fun p => entryPieces p.1 p.2))) :=
          sortFields_eq_of_perm (selectKeys_perm hpermdec hkeysdec)
            (selectKeys_pairwise_ordinal _ hkeysdec)
        rw [hsorteq, writeSortedFields_congr hgetdec]
  · intro decoded os
    cases os
    · simpa using sortFields_sorted (selectKeys decoded)
    · simpa using List.Pairwise.filter _ (sortFields_sorted (selectKeys decoded))

/-- Witness for C2 amended: swapping two ordinary entries leaves the
serialization unchanged. -/
theorem C2_amended_order_independence_witness :
    dictFromValue
        [("Sequence", Value.int 1), ("TransactionType", .str (.plain "Payment"))]
        false 10 =
      dictFromValue
        [("TransactionType", .str (.plain "Payment")), ("Sequence", Value.int 1)]
        false 10 :=
  C2_amended_order_independence.1
    [("Sequence", Value.int 1), ("TransactionType", .str (.plain "Payment"))]
    [("TransactionType", .str (.plain "Payment")), ("Sequence", Value.int 1)]
    false 10 (List.Perm.swap _ _ _) (by decide) (by decide) (by decide)

/-! ### Error-annotation lemmas -/

theorem annotated_ne_of_head {t : String} (f m : String)
    (ht : t.data.head? = some 'C') :
    ("Error processing " ++ f ++ ": " ++ m) ≠ t := by
  intro he
  have h1 : ("Error processing " ++ f ++ ": " ++ m).data.head? = some 'E' := by
    rw [String.data_append, String.data_append, String.data_append]
    rfl
  rw [he, ht] at h1
  simp at h1

/-- Every `XRPLBinaryCodecException` escaping the field-serialization
loop is annotated: it carries some listed field's name prepended to an
underlying typed-value construction error. -/
theorem writeFields_codec_annotated :
    ∀ (fuel : Nat) (decoded : List (String × Value))
      (fields : List FieldInstance) (s : BinarySerializer) (m : String),
      writeSortedFields decoded fields s fuel = .error (.codec m) →
      ∃ f ∈ fields, ∃ v m0 fuel0, dictGet decoded f.name = some v
        ∧ assocFromValue f.type v fuel0 = .error (.codec m0)
        ∧ m = "Error processing " ++ f.name ++ ": " ++ m0 := by
  intro fuel
  induction fuel with
  | zero =>
      intro decoded fields s m h
      cases h
  | succ n ih =>
      intro decoded fields s m h
      cases fields with
      | nil => cases h
      | cons f rest =>
          rw [writeSortedFields, codecRun] at h
          split at h
          · cases h
          · rename_i v hv
            split at h
            · rename_i m0 hm0
              have hm : m = "Error processing " ++ f.name ++ ": " ++ m0 := by
                injection h with h2
                injection h2 with h3
                exact h3.symm
              exact ⟨f, by simp, v, m0, n, hv, hm0, hm⟩
            · rename_i e hcond heq
              have h2 : e = .codec m := by injection h
              exact (hcond m h2).elim
            · rename_i enc henc
              split at h
              · cases h
              · rename_i s2 hs2
                obtain ⟨g, hg, v2, m2, fuel2, hv2, ha2, hm2⟩ :=
                  ih decoded rest _ m h
                exact ⟨g, by simp [hg], v2, m2, fuel2, hv2, ha2, hm2⟩

/-- C4 as stated is false: with a tagged Account X-address and an
explicit null `SourceTag`, encoding succeeds but the decomposed tag does
not populate the SourceTag field — the later null entry overwrites it,
and the output contains no SourceTag bytes (`[0x23,0,0,0,5]` would be
its serialization). -/
theorem C4_counterexample :
    dictFromValue [("Account", xaddrTag5), ("SourceTag", Value.null)] false 10 =
      .ok ([0x81, 0x14] ++ List.replicate 20 0)
    ∧ ¬ (([0x23, 0, 0, 0, 5] : List Nat) <:+:
          ([0x81, 0x14] ++ List.replicate 20 0)) := by
  constructor
  · decide
  · decide

/-- C4 amended: `from_value` fails with `ConflictingTagError` exactly
when the first entry (in insertion order) whose processing raises is one
whose X-address decomposition carries a non-null value under a tag key
(`SourceTag` for a tagged `Account` X-address — or for any X-address
sitting under the `SourceTag` key itself, even untagged — and
symmetrically for `Destination`/`DestinationTag`) while the input map
also binds that tag key to a non-null value; with the explicit tag
absent or null the encoding succeeds, and the decomposed classic address
and tag populate their fields unless a later null entry under the tag
key overwrites the decomposed tag. -/
theorem C4_amended_conflicting_tag :
    (∀ (d : List (String × Value)) (fuel : Nat) (e : SErr),
        (dictFromValue d false (fuel + 1) = .error e ∧ isConflictErr e = true) ↔
        (∃ pre kv post, d = pre ++ kv :: post
          ∧ (∀ q ∈ pre, entryErr d q.1 q.2 = none)
          ∧ entryErr d kv.1 kv.2 = some e ∧ isConflictErr e = true))
    ∧ dictFromValue [("Account", xaddrTag5)] false 10 =
        .ok ([0x23, 0, 0, 0, 5] ++ [0x81, 0x14] ++ List.replicate 20 0)
    ∧ dictFromValue [("SourceTag", Value.null), ("Account", xaddrTag5)] false 10 =
        .ok ([0x23, 0, 0, 0, 5] ++ [0x81, 0x14] ++ List.replicate 20 0)
    ∧ dictFromValue [("Account", xaddrTag5), ("SourceTag", Value.null)] false 10 =
        .ok ([0x81, 0x14] ++ List.replicate 20 0)
    ∧ dictFromValue [("Account", xaddrTag5), ("SourceTag", Value.int 7)] false 10 =
        .error (.codec "Cannot have Account X-Address and SourceTag")
    ∧ dictFromValue [("SourceTag", xaddrNoTag)] false 10 =
        .error (.codec "Cannot have Account X-Address and SourceTag") := by
  refine ⟨?_, by decide, by decide, by decide, by decide, by decide⟩
  intro d fuel e
  constructor
  · rintro ⟨h1, h2⟩
    cases hp : preprocess d d [] with
    | error e0 =>
        have ho : dictFromValue d false (fuel + 1) = .error e0 := by
          show codecRun (fuel + 1) (.dict d false) = .error e0
          rw [codecRun, hp]
        rw [ho] at h1
        have he : e0 = e := by injection h1
        rw [he] at hp
        obtain ⟨pre, kv, post, hsplit, hpre, hkv⟩ :=
          ((preprocess_error_iff d) d [] e).mp hp
        exact ⟨pre, kv, post, hsplit, hpre, hkv, h2⟩
    | ok dec =>
        rw [dictFromValue_ok_form d false fuel dec hp] at h1
        have hcases : e = .codec "Cannot have Account X-Address and SourceTag"
            ∨ e = .codec "Cannot have Destination X-Address and DestinationTag" := by
          simp only [isConflictErr, Bool.or_eq_true, beq_iff_eq] at h2
          exact h2
        rcases hcases with he | he
        · rw [he] at h1
          obtain ⟨f, hf, v, m0, fuel0, hv, ha, hm⟩ :=
            writeFields_codec_annotated fuel dec _ _ _ h1
          exact absurd hm.symm (annotated_ne_of_head f.name m0 rfl)
        · rw [he] at h1
          obtain ⟨f, hf, v, m0, fuel0, hv, ha, hm⟩ :=
            writeFields_codec_annotated fuel dec _ _ _ h1
          exact absurd hm.symm (annotated_ne_of_head f.name m0 rfl)
  · rintro ⟨pre, kv, post, hsplit, hpre, hkv, h2⟩
    have hp : preprocess d d [] = .error e :=
      ((preprocess_error_iff d) d [] e).mpr ⟨pre, kv, post, hsplit, hpre, hkv⟩
    constructor
    · show codecRun (fuel + 1) (.dict d false) = .error e
      rw [codecRun, hp]
    · exact h2

/-- Witness for C4 amended: a concrete conflicting map fails with the
conflict error via the characterization. -/
theorem C4_amended_conflicting_tag_witness :
    dictFromValue [("Account", xaddrTag5), ("SourceTag", Value.int 7)] false 10 =
        .error (.codec "Cannot have Account X-Address and SourceTag")
    ∧ isConflictErr (.codec "Cannot have Account X-Address and SourceTag") = true :=
  (C4_amended_conflicting_tag.1
      [("Account", xaddrTag5), ("SourceTag", Value.int 7)] 9
      (.codec "Cannot have Account X-Address and SourceTag")).mpr
    ⟨[], ("Account", xaddrTag5), [("SourceTag", Value.int 7)], rfl,
      by simp, by decide, by decide⟩

/-- C6: `from_value` serializes exactly the decoded entries whose key
resolves to a registry entry with a non-null value and
`is_serialized = true`; `only_signing` further excludes fields with
`is_signing = false`.  Concretely, a signature field (`TxnSignature`,
`is_signing = false`) is present in the full encoding and absent — none
of its serialized bytes appear — from the signing-only encoding. -/
theorem C6_field_selection :
    (∀ (decoded : List (String × Value)) (fi : FieldInstance),
        fi ∈ selectKeys decoded ↔
          fi.name ∈ decoded.map (fun p => p.1)
            ∧ get_field_instance fi.name = some fi
            ∧ optNotNull (dictGet decoded fi.name) = true
            ∧ fi.is_serialized = true)
    ∧ (∀ (decoded : List (String × Value)) (fi : FieldInstance),
        fi ∈ (sortFields (selectKeys decoded)).filter (fun f => f.is_signing) ↔
          fi ∈ selectKeys decoded ∧ fi.is_signing = true)
    ∧ dictFromValue
        [("TxnSignature", .str (.plain "DEAD")),
         ("SigningPubKey", .str (.plain "BEEF"))] false 10 =
        .ok [0x73, 2, 0xBE, 0xEF, 0x74, 2, 0xDE, 0xAD]
    ∧ dictFromValue
        [("TxnSignature", .str (.plain "DEAD")),
         ("SigningPubKey", .str (.plain "BEEF"))] true 10 =
        .ok [0x73, 2, 0xBE, 0xEF]
    ∧ (([0x74, 2, 0xDE, 0xAD] : List Nat) <:+:
        [0x73, 2, 0xBE, 0xEF, 0x74, 2, 0xDE, 0xAD])
    ∧ ¬ (([0x74] : List Nat) <:+: [0x73, 2, 0xBE, 0xEF]) := by
  refine ⟨fun decoded fi => selectKeys_mem_iff decoded fi, ?_,
    by decide, by decide, by decide, by decide⟩
  intro decoded fi
  rw [List.mem_filter]
  constructor
  · rintro ⟨h1, h2⟩
    exact ⟨(sortFields_perm _).subset h1, h2⟩
  · rintro ⟨h1, h2⟩
    exact ⟨(sortFields_perm _).symm.subset h1, h2⟩

/-- Witness for C6: the `Sequence` field of a concrete map is selected. -/
theorem C6_field_selection_witness :
    SequenceField ∈ selectKeys [("Sequence", Value.int 1)] :=
  (C6_field_selection.1 [("Sequence", Value.int 1)] SequenceField).mpr (by decide)

/-- C8: a typed-value construction failure (`XRPLBinaryCodecException`)
for a field is re-raised with the field's name prepended and the
original message preserved, and the loop produces no encoding result;
conversely every codec error escaping the loop has that annotated
shape, tracing back to some listed field's construction failure. -/
theorem C8_error_annotation :
    (∀ (decoded : List (String × Value)) (field : FieldInstance)
        (rest : List FieldInstance) (s : BinarySerializer) (fuel : Nat)
        (v : Value) (m : String),
        dictGet decoded field.name = some v →
        assocFromValue field.type v fuel = .error (.codec m) →
        writeSortedFields decoded (field :: rest) s (fuel + 1) =
          .error (.codec ("Error processing " ++ field.name ++ ": " ++ m)))
    ∧ (∀ (fuel : Nat) (decoded : List (String × Value))
        (fields : List FieldInstance) (s : BinarySerializer) (m : String),
        writeSortedFields decoded fields s fuel = .error (.codec m) →
        ∃ f ∈ fields, ∃ v m0 fuel0, dictGet decoded f.name = some v
          ∧ assocFromValue f.type v fuel0 = .error (.codec m0)
          ∧ m = "Error processing " ++ f.name ++ ": " ++ m0) := by
  constructor
  · intro decoded field rest s fuel v m hv ha
    have ha2 : codecRun fuel (.assoc field.type v) = .error (.codec m) := ha
    show codecRun (fuel + 1) (.writeFields decoded (field :: rest) s) = _
    rw [codecRun]
    simp only [hv, ha2]
  · exact writeFields_codec_annotated

/-- Witness for C8: a string-valued `SourceTag` (a `UInt32` field) fails
and the error is annotated with the field name. -/
theorem C8_error_annotation_witness :
    writeSortedFields [("SourceTag", .str (.plain "x"))] [SourceTagField]
        { bytesink := [] } 6 =
      .error (.codec ("Error processing " ++ SourceTagField.name ++ ": "
        ++ "Invalid type to construct a UInt32")) :=
  C8_error_annotation.1 [("SourceTag", .str (.plain "x"))] SourceTagField []
    { bytesink := [] } 5 (.str (.plain "x")) "Invalid type to construct a UInt32"
    (by rfl) (by rfl)

/-! ### Parser round-trip lemmas -/

theorem registry_header_single :
    ∀ f ∈ field_definitions, f.header = [f.type_code * 16 + f.field_code] := by
  decide

theorem registry_code_lookup :
    ∀ f ∈ field_definitions, get_field_by_code f.type_code f.field_code = some f := by
  decide

theorem registry_code_bounds :
    ∀ f ∈ field_definitions,
      1 ≤ f.type_code ∧ f.type_code ≤ 15 ∧ 1 ≤ f.field_code ∧ f.field_code ≤ 15 := by
  decide

theorem read_field_header (f : FieldInstance) (hf : f ∈ field_definitions)
    (rest : List Nat) :
    BinaryParser.read_field ⟨f.header ++ rest⟩ = .ok (f, ⟨rest⟩) := by
  have h1 := registry_header_single f hf
  have h2 := registry_code_lookup f hf
  obtain ⟨hb1, hb2, hb3, hb4⟩ := registry_code_bounds f hf
  rw [h1]
  have hdiv : (f.type_code * 16 + f.field_code) / 16 = f.type_code := by omega
  have hmod : (f.type_code * 16 + f.field_code) % 16 = f.field_code := by omega
  have hd0 : ((f.type_code * 16 + f.field_code) / 16 == 0) = false := by
    rw [hdiv]
    simp
    omega
  have hm0 : ((f.type_code * 16 + f.field_code) % 16 == 0) = false := by
    rw [hmod]
    simp
    omega
  have ht0 : (f.type_code == 0) = false := by
    simp
    omega
  have hfc0 : (f.field_code == 0) = false := by
    simp
    omega
  show BinaryParser.read_field ⟨(f.type_code * 16 + f.field_code) :: rest⟩ = _
  simp only [BinaryParser.read_field, hd0, hm0, Bool.false_eq_true, if_false,
    hdiv, hmod, resolveField, h2]
  simp [ht0, hfc0]

theorem read_append (b rest : List Nat) :
    BinaryParser.read ⟨b ++ rest⟩ b.length = .ok (b, ⟨rest⟩) := by
  rw [BinaryParser.read, if_pos (by simp)]
  simp

theorem encode_ok_of_le (n : Nat) (h : n ≤ 918744) :
    encodeVariableLength n = .ok (vlMarker n) := by
  rw [vlMarker]
  cases he : encodeVariableLength n with
  | ok lp => rfl
  | error e =>
      rw [encodeVariableLength] at he
      split at he
      · cases he
      · split at he
        · cases he
        · split at he
          · cases he
          · rename_i h3
            rw [MAX_LENGTH_VALUE] at h3
            omega

theorem vlMarker_eq (n : Nat) (lp : List Nat)
    (h : encodeVariableLength n = .ok lp) : vlMarker n = lp := by
  simp [vlMarker, h]

theorem read_length_cons (b1 : Nat) (rest : List Nat) :
    BinaryParser.read_length ⟨b1 :: rest⟩ =
      (if b1 ≤ 192 then .ok (b1, ⟨rest⟩)
       else if b1 ≤ 240 then
         match rest with
         | b2 :: rest2 => .ok (193 + (b1 - 193) * 256 + b2, ⟨rest2⟩)
         | _ => .error (.codec "OutOfRange: end of bytes reached")
       else if b1 ≤ 254 then
         match rest with
         | b2 :: b3 :: rest2 =>
             .ok (12481 + (b1 - 241) * 65536 + b2 * 256 + b3, ⟨rest2⟩)
         | _ => .error (.codec "OutOfRange: end of bytes reached")
       else .error (.codec "Invalid variable length indicator")) := rfl

theorem read_length_vlMarker (n : Nat) (h : n ≤ 918744) (rest : List Nat) :
    BinaryParser.read_length ⟨vlMarker n ++ rest⟩ = .ok (n, ⟨rest⟩) := by
  by_cases h1 : n ≤ 192
  · have hm : vlMarker n = [n] := vlMarker_eq n _ (by
      rw [encodeVariableLength,
        if_pos (by simpa [MAX_SINGLE_BYTE_LENGTH] using h1)])
    rw [hm]
    show BinaryParser.read_length ⟨n :: rest⟩ = _
    rw [read_length_cons, if_pos h1]
  · by_cases h2 : n ≤ 12480
    · have hm : vlMarker n = [(n - 193) >>> 8 + 193, (n - 193) % 256] :=
        vlMarker_eq n _ (by
          rw [encodeVariableLength,
            if_neg (by simp only [MAX_SINGLE_BYTE_LENGTH]; omega),
            if_pos (by simp only [MAX_DOUBLE_BYTE_LENGTH]; omega)]
          rfl)
      rw [hm]
      show BinaryParser.read_length
          ⟨((n - 193) >>> 8 + 193) :: (n - 193) % 256 :: rest⟩ = _
      rw [read_length_cons,
        if_neg (by rw [Nat.shiftRight_eq_div_pow]; omega),
        if_pos (by rw [Nat.shiftRight_eq_div_pow]; omega)]
      show Except.ok
          (193 + ((n - 193) >>> 8 + 193 - 193) * 256 + (n - 193) % 256,
            (⟨rest⟩ : BinaryParser)) = _
      have hsum : 193 + ((n - 193) >>> 8 + 193 - 193) * 256 + (n - 193) % 256 = n := by
        rw [Nat.shiftRight_eq_div_pow]
        omega
      rw [hsum]
    · have hm : vlMarker n =
          [241 + (n - 12481) >>> 16, (n - 12481) >>> 8 % 256, (n - 12481) % 256] :=
        vlMarker_eq n _ (by
          rw [encodeVariableLength,
            if_neg (by simp only [MAX_SINGLE_BYTE_LENGTH]; omega),
            if_neg (by simp only [MAX_DOUBLE_BYTE_LENGTH]; omega),
            if_pos (by simpa [MAX_LENGTH_VALUE] using h)]
          rfl)
      rw [hm]
      show BinaryParser.read_length
          ⟨(241 + (n - 12481) >>> 16) :: (n - 12481) >>> 8 % 256
            :: (n - 12481) % 256 :: rest⟩ = _
      rw [read_length_cons,
        if_neg (by rw [Nat.shiftRight_eq_div_pow]; omega),
        if_neg (by rw [Nat.shiftRight_eq_div_pow]; omega),
        if_pos (by rw [Nat.shiftRight_eq_div_pow]; omega)]
      show Except.ok
          (12481 + (241 + (n - 12481) >>> 16 - 241) * 65536
            + (n - 12481) >>> 8 % 256 * 256 + (n - 12481) % 256,
            (⟨rest⟩ : BinaryParser)) = _
      have hsum : 12481 + (241 + (n - 12481) >>> 16 - 241) * 65536
          + (n - 12481) >>> 8 % 256 * 256 + (n - 12481) % 256 = n := by
        rw [Nat.shiftRight_eq_div_pow, Nat.shiftRight_eq_div_pow]
        omega
      rw [hsum]

theorem canonBytes_cons (f : FieldInstance) (b : List Nat)
    (rest : List (FieldInstance × List Nat)) :
    canonBytes ((f, b) :: rest) = canonChunk f b ++ canonBytes rest := rfl

theorem registry_header_ne_nil :
    ∀ f ∈ field_definitions, f.header ≠ [] := by decide

theorem canon_length_le (pairs : List (FieldInstance × List Nat))
    (h : Canon pairs) : pairs.length ≤ (canonBytes pairs).length := by
  induction h with
  | nil => simp [canonBytes]
  | consPrim f b rest hf _ _ _ _ _ ih =>
      rw [canonBytes_cons, List.length_append, List.length_cons]
      have : 1 ≤ (canonChunk f b).length := by
        rw [canonChunk]
        rw [registry_header_single f hf]
        simp
      omega
  | consDict f inner rest hf _ _ _ _ _ _ ih_inner ih_rest =>
      rw [canonBytes_cons, List.length_append, List.length_cons]
      have : 1 ≤ (canonChunk f (canonBytes inner)).length := by
        rw [canonChunk]
        rw [registry_header_single f hf]
        simp
      omega

theorem parse_prim_value (f : FieldInstance) (b : List Nat) (tl : List Nat)
    (htype : f.type ≠ "SerializedDict")
    (hlen : if f.is_vl_encoded then b.length ≤ 918744
            else fixedWidth f.type = some b.length)
    (k : Nat) :
    parserRun (k + 1) (.fieldValue f
      ⟨(if f.is_vl_encoded then vlMarker b.length else []) ++ b ++ tl⟩) =
      .ok (b, ⟨tl⟩) := by
  cases hvl : f.is_vl_encoded with
  | true =>
      rw [hvl] at hlen
      simp only [if_true] at hlen
      have h1 : BinaryParser.read_length ⟨vlMarker b.length ++ (b ++ tl)⟩
          = .ok (b.length, ⟨b ++ tl⟩) :=
        read_length_vlMarker b.length hlen (b ++ tl)
      have h2 : BinaryParser.read ⟨b ++ tl⟩ b.length = .ok (b, ⟨tl⟩) :=
        read_append b tl
      rw [parserRun]
      simp [hvl, h1, h2]
  | false =>
      rw [hvl] at hlen
      simp at hlen
      have hne : (f.type == "SerializedDict") = false := by simp [htype]
      have h2 : BinaryParser.read ⟨b ++ tl⟩ b.length = .ok (b, ⟨tl⟩) :=
        read_append b tl
      rw [parserRun]
      simp [hvl, hne, hlen, h2]

theorem parserRun_dict_step (m : Nat) (f : FieldInstance)
    (hf : f ∈ field_definitions) (hname : f.name ≠ "ObjectEndMarker")
    (x val : List Nat) (rest0 : BinaryParser) (s s2 : BinarySerializer)
    (hval : parserRun m (.fieldValue f ⟨x⟩) = .ok (val, rest0))
    (hw : s.write_field_and_value f val = .ok s2) :
    parserRun (m + 1) (.dict ⟨f.header ++ x⟩ s) =
      parserRun m (.dict rest0
        (if f.type == "SerializedDict" then s2.append [OBJECT_END_MARKER_BYTE]
         else s2)) := by
  have hend : (⟨f.header ++ x⟩ : BinaryParser).is_end = false := by
    rw [registry_header_single f hf]
    rfl
  have hrf := read_field_header f hf x
  have hnb : (f.name == "ObjectEndMarker") = false := by simp [hname]
  rw [parserRun]
  simp only [hend, Bool.false_eq_true, if_false, hrf, hnb, hval, hw]

theorem write_canon (s : BinarySerializer) (f : FieldInstance) (b : List Nat)
    (hvl_ok : f.is_vl_encoded = true → b.length ≤ 918744) :
    s.write_field_and_value f b =
      .ok ⟨s.bytesink ++ f.header
        ++ (if f.is_vl_encoded then vlMarker b.length else []) ++ b⟩ := by
  rw [BinarySerializer.write_field_and_value]
  cases hvl : f.is_vl_encoded with
  | true =>
      rw [BinarySerializer.write_length_encoded,
        encode_ok_of_le b.length (hvl_ok hvl)]
      simp [hvl, List.append_assoc]
  | false =>
      simp [hvl, List.append_assoc]

theorem parserRun_dict_marker (j : Nat) (tl : List Nat) (s : BinarySerializer) :
    parserRun (j + 1) (.dict ⟨OBJECT_END_MARKER_BYTE :: tl⟩ s) =
      .ok (s.bytesink, ⟨tl⟩) := by
  have hrf : BinaryParser.read_field ⟨OBJECT_END_MARKER_BYTE :: tl⟩ =
      .ok (ObjectEndMarkerField, ⟨tl⟩) :=
    read_field_header ObjectEndMarkerField (by decide) tl
  have hend : (⟨OBJECT_END_MARKER_BYTE :: tl⟩ : BinaryParser).is_end = false := rfl
  have hnm : (ObjectEndMarkerField.name == "ObjectEndMarker") = true := rfl
  rw [parserRun]
  simp only [hend, Bool.false_eq_true, if_false, hrf, hnm, if_true]

theorem canon_parse_loop (pairs : List (FieldInstance × List Nat))
    (h : Canon pairs) :
    ∀ (fuel : Nat) (tail : List Nat) (s : BinarySerializer),
      2 * (canonBytes pairs ++ tail).length < fuel →
      parserRun fuel (.dict ⟨canonBytes pairs ++ tail⟩ s) =
        parserRun (fuel - pairs.length)
          (.dict ⟨tail⟩ ⟨s.bytesink ++ canonBytes pairs⟩) := by
  induction h with
  | nil =>
      intro fuel tail s _
      simp [canonBytes]
  | consPrim f b rest hf hname htype hlen hsorted hcrest ih =>
      intro fuel tail s hfuel
      have hmarker : (if f.type == "SerializedDict"
          then [OBJECT_END_MARKER_BYTE] else ([] : List Nat)) = [] := by
        simp [htype]
      have htypeb : (f.type == "SerializedDict") = false := by simp [htype]
      have hchunklen : 1 ≤ (canonChunk f b).length := by
        rw [canonChunk, registry_header_single f hf]
        simp
      have hlentot : (canonBytes ((f, b) :: rest) ++ tail).length =
          (canonChunk f b).length + (canonBytes rest ++ tail).length := by
        rw [canonBytes_cons]
        simp
      cases fuel with
      | zero => exact absurd hfuel (by omega)
      | succ m =>
          cases m with
          | zero => exact absurd hfuel (by omega)
          | succ k =>
              have hdata : canonBytes ((f, b) :: rest) ++ tail =
                  f.header ++ ((if f.is_vl_encoded then vlMarker b.length else [])
                    ++ b ++ (canonBytes rest ++ tail)) := by
                rw [canonBytes_cons, canonChunk, hmarker]
                simp [List.append_assoc]
              have hval := parse_prim_value f b (canonBytes rest ++ tail) htype hlen k
              have hw := write_canon s f b (fun hv => by
                rw [hv] at hlen
                simpa using hlen)
              have hstep := parserRun_dict_step (k + 1) f hf hname
                ((if f.is_vl_encoded then vlMarker b.length else [])
                  ++ b ++ (canonBytes rest ++ tail)) b
                ⟨canonBytes rest ++ tail⟩ s _ hval hw
              rw [hdata, hstep, htypeb]
              simp only [Bool.false_eq_true, if_false]
              have hih := ih (k + 1) tail
                ⟨s.bytesink ++ f.header
                  ++ (if f.is_vl_encoded then vlMarker b.length else []) ++ b⟩
                (by omega)
              rw [hih]
              have hn : k + 1 + 1 - (rest.length + 1) = k + 1 - rest.length := by
                omega
              rw [show ((f, b) :: rest).length = rest.length + 1 from rfl, hn]
              have hbytes : (⟨s.bytesink ++ f.header
                  ++ (if f.is_vl_encoded then vlMarker b.length else [])
                  ++ b⟩ : BinarySerializer).bytesink ++ canonBytes rest =
                  s.bytesink ++ canonBytes ((f, b) :: rest) := by
                rw [canonBytes_cons, canonChunk, hmarker]
                simp [List.append_assoc]
              rw [hbytes]
  | consDict f inner rest hf hname htype hvl hsorted hcinner hcrest ih_inner ih_rest =>
      intro fuel tail s hfuel
      have htypeb : (f.type == "SerializedDict") = true := by simp [htype]
      have hvlb : (if f.is_vl_encoded then vlMarker (canonBytes inner).length
          else ([] : List Nat)) = [] := by
        rw [hvl]
        rfl
      have hchunklen : (canonChunk f (canonBytes inner)).length =
          (canonBytes inner).length + 2 := by
        rw [canonChunk, registry_header_single f hf, hvlb, htypeb]
        simp
      have hinnerlen := canon_length_le inner hcinner
      have hlentot : (canonBytes ((f, canonBytes inner) :: rest) ++ tail).length =
          (canonChunk f (canonBytes inner)).length
            + (canonBytes rest ++ tail).length := by
        rw [canonBytes_cons]
        simp
      rw [hlentot, hchunklen] at hfuel
      have hxlen : (canonBytes inner
          ++ (OBJECT_END_MARKER_BYTE :: (canonBytes rest ++ tail))).length =
          (canonBytes inner).length + ((canonBytes rest ++ tail).length + 1) := by
        rw [List.length_append, List.length_cons]
      cases fuel with
      | zero => exact absurd hfuel (by omega)
      | succ m =>
          cases m with
          | zero => exact absurd hfuel (by omega)
          | succ k =>
              have hdata : canonBytes ((f, canonBytes inner) :: rest) ++ tail =
                  f.header ++ (canonBytes inner
                    ++ (OBJECT_END_MARKER_BYTE :: (canonBytes rest ++ tail))) := by
                rw [canonBytes_cons, canonChunk, hvlb, htypeb]
                simp [List.append_assoc]
              -- the nested object's value parse
              cases k with
              | zero => exact absurd hfuel (by omega)
              | succ j =>
                  have hih_inner := ih_inner (j + 1)
                    (OBJECT_END_MARKER_BYTE :: (canonBytes rest ++ tail))
                    ⟨[]⟩ (by
                      rw [hxlen]
                      omega)
                  have hrem : 1 ≤ j + 1 - inner.length := by
                    omega
                  have hmark := parserRun_dict_marker (j + 1 - inner.length - 1)
                    (canonBytes rest ++ tail) ⟨[] ++ canonBytes inner⟩
                  have hval : parserRun (j + 1 + 1) (.fieldValue f
                      ⟨canonBytes inner
                        ++ (OBJECT_END_MARKER_BYTE :: (canonBytes rest ++ tail))⟩) =
                      .ok (canonBytes inner, ⟨canonBytes rest ++ tail⟩) := by
                    rw [parserRun]
                    simp only [hvl, Bool.false_eq_true, if_false, htypeb, if_true]
                    rw [hih_inner]
                    rw [show j + 1 - inner.length = (j + 1 - inner.length - 1) + 1 by
                      omega]
                    rw [hmark]
                    simp
                  have hw := write_canon s f (canonBytes inner) (fun hv => by
                    simp [hvl] at hv)
                  have hstep := parserRun_dict_step (j + 1 + 1) f hf hname
                    (canonBytes inner
                      ++ (OBJECT_END_MARKER_BYTE :: (canonBytes rest ++ tail)))
                    (canonBytes inner) ⟨canonBytes rest ++ tail⟩ s _ hval hw
                  rw [hdata, hstep, htypeb]
                  simp only [if_true]
                  have hih_rest := ih_rest (j + 1 + 1) tail
                    ((⟨s.bytesink ++ f.header
                      ++ (if f.is_vl_encoded then vlMarker (canonBytes inner).length
                          else []) ++ canonBytes inner⟩ :
                        BinarySerializer).append [OBJECT_END_MARKER_BYTE])
                    (by omega)
                  rw [hih_rest]
                  have hn : j + 1 + 1 + 1 - (rest.length + 1) =
                      j + 1 + 1 - rest.length := by omega
                  rw [show ((f, canonBytes inner) :: rest).length = rest.length + 1
                    from rfl, hn]
                  rw [canonBytes_cons, canonChunk, hvlb, htypeb]
                  simp [BinarySerializer.append, List.append_assoc, hvl]

/-- C3: parsing a well-formed canonical byte sequence with
`SerializedDict.from_parser` and taking the resulting bytes reproduces
the input exactly — decoding re-serializes every parsed field and value
through the same writing path.  (`BinaryParser` is modelled from the
spec; the fuel bound is the embedding's recursion allowance.) -/
theorem C3_parse_reserialize_roundtrip :
    ∀ (pairs : List (FieldInstance × List Nat)), Canon pairs →
      ∀ (fuel : Nat), 2 * (canonBytes pairs).length < fuel →
        dictFromParser ⟨canonBytes pairs⟩ fuel = .ok (canonBytes pairs, ⟨[]⟩) := by
  intro pairs h fuel hfuel
  have h1 := canon_parse_loop pairs h fuel [] ⟨[]⟩ (by simpa using hfuel)
  rw [List.append_nil] at h1
  have hpos : 1 ≤ fuel - pairs.length := by
    have := canon_length_le pairs h
    omega
  rw [dictFromParser, h1,
    show fuel - pairs.length = (fuel - pairs.length - 1) + 1 by omega,
    parserRun]
  simp [BinaryParser.is_end]

/-- Witness for C3: a concrete canonical object (a `Sequence` field and
a nested `Memo` object holding `MemoData`) parses back to its own
bytes. -/
theorem C3_parse_reserialize_roundtrip_witness :
    dictFromParser
        ⟨canonBytes [(SequenceField, [0, 0, 0, 1]),
          (MemoField, canonBytes [(MemoDataField, [0xAB])])]⟩ 40 =
      .ok (canonBytes [(SequenceField, [0, 0, 0, 1]),
        (MemoField, canonBytes [(MemoDataField, [0xAB])])], ⟨[]⟩) := by
  have hinner : Canon [(MemoDataField, [0xAB])] :=
    Canon.consPrim MemoDataField [0xAB] [] (by decide) (by decide) (by decide)
      (by decide) (by decide) Canon.nil
  have hrest : Canon [(MemoField, canonBytes [(MemoDataField, [0xAB])])] :=
    Canon.consDict MemoField [(MemoDataField, [0xAB])] [] (by decide) (by decide)
      (by decide) (by decide) (by decide) hinner Canon.nil
  have hall : Canon [(SequenceField, [0, 0, 0, 1]),
      (MemoField, canonBytes [(MemoDataField, [0xAB])])] :=
    Canon.consPrim SequenceField [0, 0, 0, 1] _ (by decide) (by decide) (by decide)
      (by decide) (by decide) hrest
  exact C3_parse_reserialize_roundtrip _ hall 40 (by decide)

/-! ### Chunk decomposition of the serializer output (for C7) -/

theorem write_field_and_value_shape (s : BinarySerializer) (f : FieldInstance)
    (enc : List Nat) (s2 : BinarySerializer)
    (h : s.write_field_and_value f enc = .ok s2) :
    ∃ x, s2.bytesink = s.bytesink ++ f.header ++ x := by
  rw [BinarySerializer.write_field_and_value] at h
  split at h
  · rw [BinarySerializer.write_length_encoded] at h
    cases he : encodeVariableLength enc.length with
    | error msg => rw [he] at h; cases h
    | ok lp =>
        rw [he] at h
        have h2 : (Except.ok ({ bytesink := (s.bytesink ++ f.header) ++ lp ++ enc } :
            BinarySerializer) : Except String BinarySerializer) = .ok s2 := h
        have h3 : ({ bytesink := (s.bytesink ++ f.header) ++ lp ++ enc } :
            BinarySerializer) = s2 := by injection h2
        exact ⟨lp ++ enc, by rw [← h3]; simp⟩
  · have h3 : ({ bytesink := s.bytesink ++ f.header ++ enc } :
        BinarySerializer) = s2 := by injection h
    exact ⟨enc, by rw [← h3]⟩

/-- Successful field serialization decomposes into per-field chunks:
each field contributes its header, its (possibly length-prefixed) value
bytes, and — exactly when its type is a nested object — the object-end
marker immediately after; nothing else is appended. -/
theorem writeFields_chunks :
    ∀ (fuel : Nat) (decoded : List (String × Value))
      (fields : List FieldInstance) (s : BinarySerializer) (out : List Nat),
      writeSortedFields decoded fields s fuel = .ok out →
      ∃ chunks : List (FieldInstance × List Nat),
        chunks.map (fun c => c.1) = fields
        ∧ out = s.bytesink ++ chunks.flatMap (fun c =>
            c.1.header ++ c.2 ++
              (if c.1.type == "SerializedDict" then [OBJECT_END_MARKER_BYTE]
               else [])) := by
  intro fuel
  induction fuel with
  | zero => intro decoded fields s out h; cases h
  | succ n ih =>
      intro decoded fields s out h
      cases fields with
      | nil =>
          have h2 : (Except.ok s.bytesink : Except SErr (List Nat)) = .ok out := h
          have h3 : s.bytesink = out := by injection h2
          exact ⟨[], rfl, by simp [h3]⟩
      | cons f rest =>
          rw [writeSortedFields, codecRun] at h
          split at h
          · cases h
          · rename_i v hv
            split at h
            · cases h
            · rename_i e hcond heq
              cases h
            · rename_i enc henc
              split at h
              · cases h
              · rename_i s2 hs2
                obtain ⟨x, hx⟩ := write_field_and_value_shape s f enc s2 hs2
                obtain ⟨chunks, hmap, hout⟩ := ih decoded rest _ out h
                refine ⟨(f, x) :: chunks, by simp [hmap], ?_⟩
                rw [hout]
                cases hft : (f.type == "SerializedDict") with
                | true =>
                    simp only [hft, if_true, List.flatMap_cons,
                      BinarySerializer.append, hx]
                    simp [List.append_assoc]
                | false =>
                    simp only [hft, Bool.false_eq_true, if_false,
                      List.flatMap_cons, hx]
                    simp [List.append_assoc]

/-- C7: in both `from_value` and `from_parser` every serialized field
whose type is a nested object has the single object-end marker byte
`0xE1` appended immediately after its value bytes, and the top-level
object's bytes end without any additional top-level marker (the output
is exactly the concatenation of the per-field chunks).  Concretely, a
map with a nested `Memo` object yields exactly one `0xE1`, right after
the nested value, and the parser reproduces those bytes. -/
theorem C7_object_end_marker :
    (∀ (d : List (String × Value)) (os : Bool) (fuel : Nat) (b : List Nat),
        dictFromValue d os (fuel + 1) = .ok b →
        ∃ dec chunks, preprocess d d [] = .ok dec
          ∧ List.map (fun c => (c : FieldInstance × List Nat).1) chunks =
              (if os then (sortFields (selectKeys dec)).filter (fun f => f.is_signing)
               else sortFields (selectKeys dec))
          ∧ b = chunks.flatMap (fun c =>
              c.1.header ++ c.2 ++
                (if c.1.type == "SerializedDict" then [OBJECT_END_MARKER_BYTE]
                 else [])))
    ∧ dictFromValue
        [("Memo", .obj [("MemoData", .str (.plain "ABCD"))]),
         ("Sequence", Value.int 1)] false 10 =
        .ok [0x24, 0, 0, 0, 1, 0xEA, 0x7D, 2, 0xAB, 0xCD, 0xE1]
    ∧ (([0x24, 0, 0, 0, 1, 0xEA, 0x7D, 2, 0xAB, 0xCD, 0xE1] : List Nat).count 0xE1
        = 1)
    ∧ dictFromParser ⟨[0x24, 0, 0, 0, 1, 0xEA, 0x7D, 2, 0xAB, 0xCD, 0xE1]⟩ 40 =
        .ok ([0x24, 0, 0, 0, 1, 0xEA, 0x7D, 2, 0xAB, 0xCD, 0xE1], ⟨[]⟩) := by
  refine ⟨?_, by decide, by decide, by decide⟩
  intro d os fuel b h
  cases hp : preprocess d d [] with
  | error e =>
      have h2 : dictFromValue d os (fuel + 1) = .error e := by
        show codecRun (fuel + 1) (.dict d os) = .error e
        rw [codecRun, hp]
      rw [h2] at h
      cases h
  | ok dec =>
      rw [dictFromValue_ok_form d os fuel dec hp] at h
      obtain ⟨chunks, hmap, hout⟩ := writeFields_chunks fuel dec _ _ b h
      exact ⟨dec, chunks, rfl, hmap, by simpa using hout⟩

/-- Witness for C7: the concrete nested-object map decomposes into
chunks with the marker placement. -/
theorem C7_object_end_marker_witness :
    ∃ dec chunks,
      preprocess
          [("Memo", .obj [("MemoData", .str (.plain "ABCD"))]),
           ("Sequence", Value.int 1)]
          [("Memo", .obj [("MemoData", .str (.plain "ABCD"))]),
           ("Sequence", Value.int 1)] [] = .ok dec
      ∧ List.map (fun c => (c : FieldInstance × List Nat).1) chunks =
          (if false then (sortFields (selectKeys dec)).filter (fun f => f.is_signing)
           else sortFields (selectKeys dec))
      ∧ [0x24, 0, 0, 0, 1, 0xEA, 0x7D, 2, 0xAB, 0xCD, 0xE1] =
          chunks.flatMap (fun c =>
            c.1.header ++ c.2 ++
              (if c.1.type == "SerializedDict" then [OBJECT_END_MARKER_BYTE]
               else [])) :=
  C7_object_end_marker.1
    [("Memo", .obj [("MemoData", .str (.plain "ABCD"))]),
     ("Sequence", Value.int 1)] false 9
    [0x24, 0, 0, 0, 1, 0xEA, 0x7D, 2, 0xAB, 0xCD, 0xE1] (by decide)

end XrplCodec
